import Mathlib

/-!
A verification of the key-extraction and provider-classification engine of the
`aikey` repository (an API-key manager).  The TypeScript sources
`src/utils/keyExtractor.ts`, `src/utils/fileUtils.ts` and
`src/shared/constants.ts` are shallowly embedded here: strings are `List Char`,
the regular expressions of the source are spelled out as executable character
tests, and the effectful inputs of the engine (`crypto.randomUUID()`,
`new Date().toISOString()`) are passed in as parameters.  `JSON.parse` and
`JSON.stringify`, which the engine calls but which live in the JavaScript
platform, are modelled from the spec as an executable JSON parser and printer.
-/

/-! ## Basic string utilities (JavaScript `trim`, `split`, `toLowerCase`) -/

/-- The whitespace characters trimmed by `String.prototype.trim` (restricted to
the ASCII whitespace actually relevant to the engine's inputs). -/
def isWsChar (c : Char) : Bool :=
  c = ' ' || c = '\t' || c = '\n' || c = '\r'

/-- Remove leading whitespace. -/
def trimLeftChars (l : List Char) : List Char := l.dropWhile isWsChar

/-- Remove trailing whitespace. -/
def trimRightChars (l : List Char) : List Char := (l.reverse.dropWhile isWsChar).reverse

/-- JavaScript `s.trim()`. -/
def trimChars (l : List Char) : List Char := trimRightChars (trimLeftChars l)

/-- JavaScript `s.toLowerCase()` (ASCII case folding, which is all the
classifier's patterns exercise). -/
def lowerAll (l : List Char) : List Char := l.map Char.toLower

/-- JavaScript `s.split(sep)` for a one-character separator: always returns at
least one (possibly empty) piece. -/
def splitOnChar (sep : Char) : List Char → List (List Char)
  | [] => [[]]
  | c :: r =>
    if c = sep then [] :: splitOnChar sep r
    else
      match splitOnChar sep r with
      | [] => [[c]]
      | p :: ps => (c :: p) :: ps

/-- JavaScript `content.split` on the line-break regex: line breaks are `\n`
or `\r\n` (a lone `\r` does not break a line). -/
def splitLinesJs : List Char → List (List Char)
  | [] => [[]]
  | '\r' :: '\n' :: r => [] :: splitLinesJs r
  | '\n' :: r => [] :: splitLinesJs r
  | c :: r =>
    match splitLinesJs r with
    | [] => [[c]]
    | p :: ps => (c :: p) :: ps

/-! ## LineTokenizer (`extractKeyValuePair` in `keyExtractor.ts`) -/

/-- Case-insensitive test of one character against its two cases. -/
def charIsCI (c low up : Char) : Bool := c = low || c = up

/-- After `http:` or `https:`, two slashes must follow. -/
def urlSlashes : List Char → Bool
  | a :: b :: _ => a = '/' && b = '/'
  | _ => false

/-- After an optional `s`, a colon and two slashes must follow. -/
def urlColonSlashes : List Char → Bool
  | c :: rest => c = ':' && urlSlashes rest
  | [] => false

/-- After `http`, either `://` or `s://` must follow. -/
def urlAfterHttp : List Char → Bool
  | c :: rest => if c = ':' then urlSlashes rest else charIsCI c 's' 'S' && urlColonSlashes rest
  | [] => false

/-- After `ht`, a `t` then `p` must follow. -/
def urlAfterHt : List Char → Bool
  | c3 :: rest =>
    charIsCI c3 't' 'T' &&
      (match rest with
       | c4 :: rest2 => charIsCI c4 'p' 'P' && urlAfterHttp rest2
       | [] => false)
  | [] => false

/-- The test `line.match` against the URL-prefix regex `https?` then `:` and
two slashes, with flag `i`: an absolute URL prefix, case-insensitively. -/
def isHttpUrlStart : List Char → Bool
  | c1 :: rest =>
    charIsCI c1 'h' 'H' &&
      (match rest with
       | c2 :: rest2 => charIsCI c2 't' 'T' && urlAfterHt rest2
       | [] => false)
  | [] => false

/-- Characters allowed in the key part of the `=`-form regex `[^=:]`. -/
def notEqColon (c : Char) : Bool := !(c = '=' || c = ':')

/-- Characters allowed in the key part of the `:`-form regex `[^:]`. -/
def notColon (c : Char) : Bool := !(c = ':')

/-- JavaScript line terminators: LF, CR, LINE SEPARATOR and PARAGRAPH
SEPARATOR.  In a regular expression without flags `.` matches any character
except these, and `$` matches only at the end of the input. -/
def isLineTerm (c : Char) : Bool :=
  c = '\n' || c = '\r' || c = '\u2028' || c = '\u2029'

/-- The match `line.match(/^([^=:]+)=(.*)$/)`: succeeds when the first `=` or
`:` of the line is an `=` that is not the first character and everything after
that `=` is free of line terminators (the `(.*)$` part: `.` excludes line
terminators and the unflagged `$` anchors at the end of the input), and splits
there. -/
def splitFirstEq (l : List Char) : Option (List Char × List Char) :=
  match l.dropWhile notEqColon with
  | '=' :: post =>
    if l.takeWhile notEqColon = [] then none
    else if post.any isLineTerm then none
    else some (l.takeWhile notEqColon, post)
  | _ => none

/-- The match `line.match(/^([^:]+):(.*)$/)`: split at the first `:`, requiring
a non-empty left side and no line terminator after the `:` (the `(.*)$`
part). -/
def splitFirstColon (l : List Char) : Option (List Char × List Char) :=
  match l.dropWhile notColon with
  | ':' :: post =>
    if l.takeWhile notColon = [] then none
    else if post.any isLineTerm then none
    else some (l.takeWhile notColon, post)
  | _ => none

/-- Strip one layer of surrounding double or single quotes, as the tokenizer
does with `value.substring(1, value.length - 1)` (a single `"` is left alone,
mirroring the argument swap JavaScript's `substring` performs). -/
def stripQuotes (v : List Char) : List Char :=
  if 2 ≤ v.length ∧ v.head? = some '"' ∧ v.getLast? = some '"' then (v.drop 1).dropLast
  else if 2 ≤ v.length ∧ v.head? = some '\'' ∧ v.getLast? = some '\'' then (v.drop 1).dropLast
  else v

/-- The tokenizer `extractKeyValuePair` of `keyExtractor.ts`: trim the line, reject blank,
`#`- and `//`-comments and URLs, then try the `=` form and the `:` form. -/
def extractKeyValuePair (line : List Char) : Option (List Char × List Char) :=
  let t := trimChars line
  if t = [] then none
  else if t.head? = some '#' then none
  else if ("//").toList.isPrefixOf t then none
  else if isHttpUrlStart t then none
  else
    match splitFirstEq t with
    | some (pre, post) => some (trimChars pre, stripQuotes (trimChars post))
    | none =>
      match splitFirstColon t with
      | some (pre, post) =>
        let k := trimChars pre
        let v := trimChars post
        if lowerAll k = ("http").toList ∨ lowerAll k = ("https").toList ∨
            ("//").toList.isPrefixOf v then none
        else some (k, stripQuotes v)
      | none => none

/-! ## FormatValidator (`isValidKeyFormat`) -/

/-- The character class of `/[\/\\#$%^&*()!@<>{}[\]|]/`. -/
def invalidKeyChars : List Char :=
  ['/', '\\', '#', '$', '%', '^', '&', '*', '(', ')', '!', '@', '<', '>', '{', '}', '[', ']', '|']

/-- The validator `isValidKeyFormat` of `keyExtractor.ts`: reject keys containing a dot or
any of the special characters, accept everything else. -/
def isValidKeyFormat (key : List Char) : Bool :=
  if key.contains '.' then false
  else if key.any (fun c => invalidKeyChars.contains c) then false
  else true

/-! ## ProviderClassifier (`PROVIDER_PATTERNS`, `detectProvider`) -/

/-- A provider pattern rule: an optional key matcher and an optional value
matcher (`type PatternRule = { key?: RegExp; value?: RegExp }`). -/
structure PatternRule where
  key : Option (List Char → Bool)
  value : Option (List Char → Bool)

/-- Substring occurrence test: does `pat` occur contiguously in `l`. -/
def hasSubstr (pat : List Char) (l : List Char) : Bool :=
  match l with
  | [] => pat.isEmpty
  | _ :: r => pat.isPrefixOf l || hasSubstr pat r

/-- Test of an unanchored case-insensitive literal regex such as `openai` with
flag `i`: substring test after case folding (`pat` is given lowercase). -/
def containsCI (pat : List Char) (s : List Char) : Bool := hasSubstr pat (lowerAll s)

/-- Test of a fully anchored case-insensitive literal regex (`^pat$` with flag
`i`): whole-string equality after case folding. -/
def wholeCI (pat : List Char) (s : List Char) : Bool := lowerAll s == pat

/-- Test of a start-anchored case-insensitive literal regex (`^pat` with flag
`i`): prefix test after case folding. -/
def startCI (pat : List Char) (s : List Char) : Bool := pat.isPrefixOf (lowerAll s)

/-- Test of the OpenAI value regex `^sk-[^a-z]`: the characters `sk-` followed
by one character that is not a lowercase ASCII letter. -/
def skValuePattern (s : List Char) : Bool :=
  match s with
  | 's' :: 'k' :: '-' :: c :: _ => !('a' ≤ c && c ≤ 'z')
  | _ => false

/-- Test of the Anthropic value regex `^sk-ant-` (case-sensitive). -/
def skAntValuePattern (s : List Char) : Bool := ("sk-ant-").toList.isPrefixOf s

/-- Test of the AWS value regex `^AKIA[0-9A-Z]` sixteen times then end
(case-sensitive). -/
def akiaValuePattern (s : List Char) : Bool :=
  match s with
  | 'A' :: 'K' :: 'I' :: 'A' :: rest =>
    rest.length == 16 && rest.all (fun c => c.isDigit || ('A' ≤ c && c ≤ 'Z'))
  | _ => false

/-- Test of the HuggingFace key regex `hugg?ingface` with flag `i`. -/
def huggingPattern (s : List Char) : Bool :=
  containsCI (("huggingface").toList) s || containsCI (("hugingface").toList) s

/-- The `PROVIDER_PATTERNS` table of `keyExtractor.ts`, in declaration order
(`Object.entries` iterates string keys in insertion order). -/
def PROVIDER_PATTERNS : List (List Char × List PatternRule) :=
  [ (("OpenAI").toList,
      [ ⟨some (containsCI (("openai").toList)), some skValuePattern⟩,
        ⟨some (containsCI (("gpt").toList)), none⟩,
        ⟨some (wholeCI (("openai_api_key").toList)), none⟩ ]),
    (("Google").toList,
      [ ⟨some (containsCI (("google").toList)), none⟩,
        ⟨some (containsCI (("gcp").toList)), none⟩,
        ⟨some (containsCI (("gemini").toList)), none⟩,
        ⟨some (wholeCI (("google_api_key").toList)), none⟩,
        ⟨some (wholeCI (("api_key").toList)), none⟩ ]),
    (("Anthropic").toList,
      [ ⟨some (containsCI (("anthropic").toList)), none⟩,
        ⟨some (containsCI (("claude").toList)), none⟩,
        ⟨none, some skAntValuePattern⟩,
        ⟨some (wholeCI (("anthropic_api_key").toList)), none⟩ ]),
    (("Azure").toList,
      [ ⟨some (containsCI (("azure").toList)), none⟩,
        ⟨some (containsCI (("microsoft").toList)), none⟩,
        ⟨some (containsCI (("cognitive").toList)), none⟩,
        ⟨some (startCI (("azure_").toList)), none⟩ ]),
    (("HuggingFace").toList,
      [ ⟨some huggingPattern, none⟩,
        ⟨some (containsCI (("hf_").toList)), none⟩,
        ⟨some (wholeCI (("hf_api_key").toList)), none⟩ ]),
    (("AWS").toList,
      [ ⟨some (containsCI (("aws").toList)), none⟩,
        ⟨some (containsCI (("amazon").toList)), none⟩,
        ⟨some (startCI (("aws_").toList)), none⟩,
        ⟨none, some akiaValuePattern⟩ ]) ]

/-- A rule matches when its key matcher accepts the name or its value matcher
accepts the value; an absent matcher contributes nothing. -/
def ruleMatches (r : PatternRule) (name value : List Char) : Bool :=
  (match r.key with | some m => m name | none => false) ||
  (match r.value with | some m => m value | none => false)

/-- The nested `for` loops of `detectProvider`: first provider with a matching
rule wins, `"Other"` if the table is exhausted. -/
def detectLoop : List (List Char × List PatternRule) → List Char → List Char → List Char
  | [], _, _ => ("Other").toList
  | (prov, rules) :: rest, n, v =>
    if rules.any (fun r => ruleMatches r n v) then prov else detectLoop rest n v

/-- The classifier `detectProvider` of `keyExtractor.ts`. -/
def detectProvider (keyName keyValue : List Char) : List Char :=
  detectLoop PROVIDER_PATTERNS keyName keyValue

/-- The classifier as the spec words it: return the first provider of the
table owning a matching rule, and `"Other"` when no rule in the whole table
matches. -/
def detectProviderSpec (name value : List Char) : List Char :=
  match PROVIDER_PATTERNS.find? (fun pr => pr.2.any (fun r => ruleMatches r name value)) with
  | some pr => pr.1
  | none => ("Other").toList

/-- The constant `API_KEY_PROVIDERS` of `shared/constants.ts`: the closed
provider enumeration. -/
def API_KEY_PROVIDERS : List (List Char) :=
  [("OpenAI").toList, ("Anthropic").toList, ("Google").toList, ("AWS").toList,
   ("Azure").toList, ("HuggingFace").toList, ("Other").toList]

/-! ## RecordAssembler and the line-oriented adapter -/

/-- The `ApiKey` record of `types/apiKey.ts`; `lastUsed` is optional. -/
structure ApiKey where
  id : List Char
  name : List Char
  value : List Char
  provider : List Char
  description : List Char
  dateAdded : List Char
  lastUsed : Option (List Char)
deriving DecidableEq, Repr

/-- The line loop of `extractAndCategorizeKeys`: tokenize each line, keep pairs
with a truthy (non-empty) key and value that pass `isValidKeyFormat`, classify
and assemble.  `ids` supplies the `crypto.randomUUID()` results and `now` the
`new Date().toISOString()` timestamp. -/
def extractLoop (ids : Nat → List Char) (now : List Char) :
    List (List Char) → Nat → List ApiKey
  | [], _ => []
  | line :: rest, i =>
    match extractKeyValuePair line with
    | some (k, v) =>
      if k ≠ [] ∧ v ≠ [] then
        if isValidKeyFormat k then
          ⟨ids i, k, v, detectProvider k v, [], now, none⟩ :: extractLoop ids now rest (i + 1)
        else extractLoop ids now rest i
      else extractLoop ids now rest i
    | none => extractLoop ids now rest i

/-- The line-oriented adapter `extractAndCategorizeKeys` of `keyExtractor.ts`. -/
def extractAndCategorizeKeys (ids : Nat → List Char) (now content : List Char) : List ApiKey :=
  extractLoop ids now (splitLinesJs content) 0


/-! ## JSON values (JavaScript values reachable from `JSON.parse`) -/

/-- A JSON value; models the JavaScript values the JSON adapter manipulates.
Numbers are carried as integers: the adapter never inspects numeric values,
only their truthiness and string coercion. -/
inductive Json where
  | null : Json
  | bool (b : Bool) : Json
  | num (n : Int) : Json
  | str (s : List Char) : Json
  | arr (elems : List Json) : Json
  | obj (fields : List (List Char × Json)) : Json

/-- JavaScript truthiness of a value. -/
def jsTruthy : Json → Bool
  | .null => false
  | .bool b => b
  | .num n => n != 0
  | .str s => !s.isEmpty
  | .arr _ => true
  | .obj _ => true

/-- Truthiness of a property access result (`none` models `undefined`). -/
def jsTruthyOpt : Option Json → Bool
  | some j => jsTruthy j
  | none => false

/-- JavaScript `x || d` for a possibly-undefined `x`. -/
def jsOr (o : Option Json) (d : Json) : Json :=
  match o with
  | some j => if jsTruthy j then j else d
  | none => d

/-- Property lookup on an object produced by `JSON.parse`: with duplicate keys
the later binding wins, so the last matching field is read. -/
def lookupField (fields : List (List Char × Json)) (k : List Char) : Option Json :=
  match fields with
  | [] => none
  | (k', v) :: rest =>
    match lookupField rest k with
    | some r => some r
    | none => if k' = k then some v else none

/-- Decimal digits of a natural number. -/
def natChars (n : Nat) : List Char := Nat.toDigits 10 n

/-- Decimal rendering of an integer. -/
def intToChars (n : Int) : List Char :=
  if n < 0 then '-' :: natChars n.natAbs else natChars n.toNat

mutual

/-- JavaScript `String(x)` coercion, used when a regular expression is tested
against a non-string value. -/
def jsToString : Json → List Char
  | .null => ("null").toList
  | .bool true => ("true").toList
  | .bool false => ("false").toList
  | .num n => intToChars n
  | .str s => s
  | .arr xs => jsArrJoin xs
  | .obj _ => ("[object Object]").toList

/-- JavaScript `Array.prototype.toString`: elements joined with commas, `null`
elements rendered empty. -/
def jsArrJoin : List Json → List Char
  | [] => []
  | [x] => jsElemToString x
  | x :: xs => jsElemToString x ++ ',' :: jsArrJoin xs

/-- One array element under `Array.prototype.toString`. -/
def jsElemToString : Json → List Char
  | .null => []
  | j => jsToString j

end

/-! ## The JSON printer (`JSON.stringify`, modelled from the spec) -/

/-- Lowercase hexadecimal digit. -/
def hexDigitChar (n : Nat) : Char :=
  if n < 10 then Char.ofNat ('0'.toNat + n) else Char.ofNat ('a'.toNat + (n - 10))

/-- Escaping of one character inside a JSON string literal, as performed by
`JSON.stringify`. -/
def escapeChar (c : Char) : List Char :=
  if c = '"' then ['\\', '"']
  else if c = '\\' then ['\\', '\\']
  else if c = '\n' then ['\\', 'n']
  else if c = '\r' then ['\\', 'r']
  else if c = '\t' then ['\\', 't']
  else if c.toNat = 8 then ['\\', 'b']
  else if c.toNat = 12 then ['\\', 'f']
  else if c.toNat < 32 then
    ['\\', 'u', '0', '0', hexDigitChar (c.toNat / 16), hexDigitChar (c.toNat % 16)]
  else [c]

/-- Escaping of a whole string body. -/
def escapeStr : List Char → List Char
  | [] => []
  | c :: r => escapeChar c ++ escapeStr r

/-- A JSON string literal: quoted, escaped body. -/
def quoteStr (s : List Char) : List Char := '"' :: (escapeStr s ++ ['"'])

/-- Indentation emitted by `JSON.stringify(x, null, 2)` at nesting depth `d`. -/
def padN (d : Nat) : List Char := List.replicate (2 * d) ' '

mutual

/-- The pretty printer `JSON.stringify(x, null, 2)` (modelled from the spec:
the canonical on-disk representation is a pretty-printed JSON array), with `d`
the current nesting depth. -/
def stringifyP (d : Nat) : Json → List Char
  | .null => ("null").toList
  | .bool true => ("true").toList
  | .bool false => ("false").toList
  | .num n => intToChars n
  | .str s => quoteStr s
  | .arr [] => ['[', ']']
  | .arr (x :: xs) =>
    '[' :: '\n' :: (stringifyItems (d + 1) (x :: xs) ++ '\n' :: (padN d ++ [']']))
  | .obj [] => ['{', '}']
  | .obj (f :: fs) =>
    '{' :: '\n' :: (stringifyFields (d + 1) (f :: fs) ++ '\n' :: (padN d ++ ['}']))

/-- Array items, one per line, separated by commas. -/
def stringifyItems (d : Nat) : List Json → List Char
  | [] => []
  | [x] => padN d ++ stringifyP d x
  | x :: xs => padN d ++ (stringifyP d x ++ ',' :: '\n' :: stringifyItems d xs)

/-- Object fields, one per line, separated by commas. -/
def stringifyFields (d : Nat) : List (List Char × Json) → List Char
  | [] => []
  | [(k, v)] => padN d ++ (quoteStr k ++ ':' :: ' ' :: stringifyP d v)
  | (k, v) :: fs =>
    padN d ++ (quoteStr k ++ ':' :: ' ' :: (stringifyP d v ++ ',' :: '\n' :: stringifyFields d fs))

end

mutual

/-- The compact printer `JSON.stringify(x)` (no indentation), used by the JSON
object adapter to stringify non-string values. -/
def stringifyC : Json → List Char
  | .null => ("null").toList
  | .bool true => ("true").toList
  | .bool false => ("false").toList
  | .num n => intToChars n
  | .str s => quoteStr s
  | .arr xs => '[' :: (stringifyCItems xs ++ [']'])
  | .obj fs => '{' :: (stringifyCFields fs ++ ['}'])

/-- Compact array items. -/
def stringifyCItems : List Json → List Char
  | [] => []
  | [x] => stringifyC x
  | x :: xs => stringifyC x ++ ',' :: stringifyCItems xs

/-- Compact object fields. -/
def stringifyCFields : List (List Char × Json) → List Char
  | [] => []
  | [(k, v)] => quoteStr k ++ ':' :: stringifyC v
  | (k, v) :: fs => quoteStr k ++ ':' :: (stringifyC v ++ ',' :: stringifyCFields fs)

end

/-! ## The JSON parser (`JSON.parse`, modelled from the spec) -/

/-- JSON insignificant whitespace. -/
def skipWs (l : List Char) : List Char := l.dropWhile isWsChar

/-- Hexadecimal digit test. -/
def isHexDigit (c : Char) : Bool :=
  c.isDigit || ('a' ≤ c && c ≤ 'f') || ('A' ≤ c && c ≤ 'F')

/-- Hexadecimal digit value. -/
def hexVal (c : Char) : Nat :=
  if c.isDigit then c.toNat - '0'.toNat
  else if 'a' ≤ c && c ≤ 'f' then c.toNat - 'a'.toNat + 10
  else c.toNat - 'A'.toNat + 10

/-- Parse the body of a JSON string literal (the opening quote already
consumed); returns the decoded characters and the text after the closing
quote.  Raw control characters are rejected, as `JSON.parse` rejects them. -/
def parseStringBody : List Char → Option (List Char × List Char)
  | [] => none
  | c :: r =>
    if c = '"' then some ([], r)
    else if c = '\\' then
      match r with
      | [] => none
      | e :: r2 =>
        if e = '"' then (parseStringBody r2).map (fun p => ('"' :: p.1, p.2))
        else if e = '\\' then (parseStringBody r2).map (fun p => ('\\' :: p.1, p.2))
        else if e = '/' then (parseStringBody r2).map (fun p => ('/' :: p.1, p.2))
        else if e = 'b' then (parseStringBody r2).map (fun p => (Char.ofNat 8 :: p.1, p.2))
        else if e = 'f' then (parseStringBody r2).map (fun p => (Char.ofNat 12 :: p.1, p.2))
        else if e = 'n' then (parseStringBody r2).map (fun p => ('\n' :: p.1, p.2))
        else if e = 'r' then (parseStringBody r2).map (fun p => ('\r' :: p.1, p.2))
        else if e = 't' then (parseStringBody r2).map (fun p => ('\t' :: p.1, p.2))
        else if e = 'u' then
          match r2 with
          | h1 :: h2 :: h3 :: h4 :: r3 =>
            if isHexDigit h1 && isHexDigit h2 && isHexDigit h3 && isHexDigit h4 then
              (parseStringBody r3).map (fun p =>
                (Char.ofNat (((hexVal h1 * 16 + hexVal h2) * 16 + hexVal h3) * 16 + hexVal h4)
                  :: p.1, p.2))
            else none
          | _ => none
        else none
    else if c.toNat < 32 then none
    else (parseStringBody r).map (fun p => (c :: p.1, p.2))

/-- Numeric value of a digit string. -/
def digitsToNat (ds : List Char) : Nat :=
  ds.foldl (fun a c => a * 10 + (c.toNat - '0'.toNat)) 0

/-- Parse the optional exponent part of a JSON number, returning the remaining
text. -/
def parseExpPart (s : List Char) : Option (List Char) :=
  match s with
  | 'e' :: r | 'E' :: r =>
    let r2 := match r with
      | '+' :: r2 => r2
      | '-' :: r2 => r2
      | _ => r
    if r2.takeWhile Char.isDigit = [] then none else some (r2.dropWhile Char.isDigit)
  | _ => some s

/-- Parse a JSON number (grammar-faithful: optional minus, integer part
without leading zeros, optional fraction, optional exponent).  The carried
value keeps only the integer part: the adapter never reads numeric values. -/
def parseNumber (l : List Char) : Option (Json × List Char) :=
  let neg := l.head? = some '-'
  let s1 := if neg then l.tail else l
  let ds := s1.takeWhile Char.isDigit
  let s2 := s1.dropWhile Char.isDigit
  if ds = [] then none
  else if 2 ≤ ds.length ∧ ds.head? = some '0' then none
  else
    let afterFrac : Option (List Char) :=
      match s2 with
      | '.' :: r2 => if r2.takeWhile Char.isDigit = [] then none else some (r2.dropWhile Char.isDigit)
      | _ => some s2
    match afterFrac with
    | none => none
    | some s3 =>
      match parseExpPart s3 with
      | none => none
      | some s4 =>
        some (.num (if neg then -(digitsToNat ds : Int) else (digitsToNat ds : Int)), s4)

mutual

/-- Parse one JSON value (first character significant, leading whitespace
already skipped).  `fuel` bounds the recursion depth; every call consumes one
unit while consuming at least one character, so the top-level allowance of
`2 * length + 2` never runs out before the input does. -/
def parseValue : Nat → List Char → Option (Json × List Char)
  | 0, _ => none
  | _ + 1, [] => none
  | fuel + 1, c :: r =>
    if c = 'n' then
      match r with
      | 'u' :: 'l' :: 'l' :: r2 => some (.null, r2)
      | _ => none
    else if c = 't' then
      match r with
      | 'r' :: 'u' :: 'e' :: r2 => some (.bool true, r2)
      | _ => none
    else if c = 'f' then
      match r with
      | 'a' :: 'l' :: 's' :: 'e' :: r2 => some (.bool false, r2)
      | _ => none
    else if c = '"' then (parseStringBody r).map (fun p => (.str p.1, p.2))
    else if c = '[' then
      match skipWs r with
      | c2 :: r2 =>
        if c2 = ']' then some (.arr [], r2)
        else (parseElems fuel (c2 :: r2)).map (fun p => (.arr p.1, p.2))
      | [] => none
    else if c = '{' then
      match skipWs r with
      | c2 :: r2 =>
        if c2 = '}' then some (.obj [], r2)
        else (parseFields fuel (c2 :: r2)).map (fun p => (.obj p.1, p.2))
      | [] => none
    else if c = '-' ∨ c.isDigit then parseNumber (c :: r)
    else none

/-- Parse the elements of a non-empty JSON array, up to and including the
closing bracket. -/
def parseElems : Nat → List Char → Option (List Json × List Char)
  | 0, _ => none
  | fuel + 1, s =>
    match parseValue fuel (skipWs s) with
    | none => none
    | some (v, r) =>
      match skipWs r with
      | c :: r2 =>
        if c = ',' then
          match parseElems fuel r2 with
          | some (vs, r3) => some (v :: vs, r3)
          | none => none
        else if c = ']' then some ([v], r2)
        else none
      | [] => none

/-- Parse the fields of a non-empty JSON object, up to and including the
closing brace. -/
def parseFields : Nat → List Char → Option (List (List Char × Json) × List Char)
  | 0, _ => none
  | fuel + 1, s =>
    match skipWs s with
    | c0 :: r =>
      if c0 = '"' then
        match parseStringBody r with
        | none => none
        | some (k, r1) =>
          match skipWs r1 with
          | c1 :: r2 =>
            if c1 = ':' then
              match parseValue fuel (skipWs r2) with
              | none => none
              | some (v, r3) =>
                match skipWs r3 with
                | c3 :: r4 =>
                  if c3 = ',' then
                    match parseFields fuel r4 with
                    | some (fs, r5) => some ((k, v) :: fs, r5)
                    | none => none
                  else if c3 = '}' then some ([(k, v)], r4)
                  else none
                | [] => none
            else none
          | [] => none
      else none
    | [] => none

end

/-- The platform `JSON.parse`, modelled from the spec: parse one JSON value
surrounded by optional whitespace; anything else is a parse failure. -/
def parseJson (s : List Char) : Option Json :=
  match parseValue (2 * s.length + 2) (skipWs s) with
  | some (v, r) => if skipWs r = [] then some v else none
  | none => none

/-! ## The JSON adapter (`extractKeysFromFile` in `keyExtractor.ts`) -/

/-- A record as the JSON array adapter builds it: the adapter copies the
parsed JavaScript values into the record fields without coercing them to
strings, so the fields are JSON values here; `lastUsed` is carried as a
possibly-undefined property. -/
structure JsRecord where
  id : Json
  name : Json
  value : Json
  provider : Json
  description : Json
  dateAdded : Json
  lastUsed : Option Json

/-- Embedding of a string-field record into the adapter's record shape (a
JavaScript object whose fields are strings is an object of string values). -/
def jsOfApiKey (k : ApiKey) : JsRecord :=
  ⟨.str k.id, .str k.name, .str k.value, .str k.provider, .str k.description,
   .str k.dateAdded, k.lastUsed.map Json.str⟩

/-- The `parsed.map(...)` loop of the JSON array branch: an element keeps only
truthy `name` and `value`; a `null` element makes the property access throw
(result `none`), which the adapter's `catch` turns into an empty result. -/
def mapItems (ids : Nat → List Char) (now : List Char) :
    List Json → Nat → Option (List JsRecord)
  | [], _ => some []
  | item :: rest, i =>
    match item with
    | .null => none
    | .obj fields =>
      if jsTruthyOpt (lookupField fields (("name").toList)) ∧
          jsTruthyOpt (lookupField fields (("value").toList)) then
        match mapItems ids now rest (i + 1) with
        | some rs =>
          some (⟨jsOr (lookupField fields (("id").toList)) (.str (ids i)),
                 (lookupField fields (("name").toList)).getD .null,
                 (lookupField fields (("value").toList)).getD .null,
                 jsOr (lookupField fields (("provider").toList))
                   (.str (detectProvider
                     (jsToString ((lookupField fields (("name").toList)).getD .null))
                     (jsToString ((lookupField fields (("value").toList)).getD .null)))),
                 jsOr (lookupField fields (("description").toList)) (.str []),
                 jsOr (lookupField fields (("dateAdded").toList)) (.str now),
                 lookupField fields (("lastUsed").toList)⟩ :: rs)
        | none => none
      else mapItems ids now rest i
    | _ => mapItems ids now rest i

/-- JavaScript `Object.entries` on a parsed JSON value that is not an array:
objects list their fields, strings their indexed characters, numbers and
booleans have none, and `null` throws (`none`). -/
def entriesOfJson : Json → Option (List (List Char × Json))
  | .null => none
  | .obj fs => some fs
  | .str s => some (s.enum.map (fun p => (natChars p.1, Json.str [p.2])))
  | .arr xs => some (xs.enum.map (fun p => (natChars p.1, p.2)))
  | _ => some []

/-- The `Object.entries(parsed).map(...)` loop of the JSON object branch:
every entry becomes a record, the value stringified when not a string. -/
def jsonObjectLoop (ids : Nat → List Char) (now : List Char) :
    List (List Char × Json) → Nat → List ApiKey
  | [], _ => []
  | (k, v) :: rest, i =>
    let strValue := match v with | .str s => s | _ => stringifyC v
    ⟨ids i, k, strValue, detectProvider k strValue, [], now, none⟩ ::
      jsonObjectLoop ids now rest (i + 1)

/-- The `.json` branch of `extractKeysFromFile`: parse, then the array or the
object path; the boolean reports the `catch` branch (a logged, recoverable
error with an empty result). -/
def extractKeysFromJson (ids : Nat → List Char) (now content : List Char) :
    List JsRecord × Bool :=
  match parseJson content with
  | none => ([], true)
  | some (Json.arr items) =>
    match mapItems ids now items 0 with
    | some rs => (rs, false)
    | none => ([], true)
  | some j =>
    match entriesOfJson j with
    | none => ([], true)
    | some entries => ((jsonObjectLoop ids now entries 0).map jsOfApiKey, false)

/-- The simple line-oriented extensions of `extractKeysFromFile`. -/
def SIMPLE_EXTS : List (List Char) :=
  [(".env").toList, (".txt").toList, (".properties").toList, (".conf").toList,
   (".cfg").toList, (".ini").toList]

/-- `extractKeysFromFile` of `keyExtractor.ts`: dispatch on the file extension
(line-oriented formats and the fallback use the standard extractor, `.json`
the JSON adapter). -/
def extractKeysFromFile (ids : Nat → List Char) (now content ext : List Char) :
    List JsRecord × Bool :=
  if SIMPLE_EXTS.contains ext then
    ((extractAndCategorizeKeys ids now content).map jsOfApiKey, false)
  else if ext = (".json").toList then extractKeysFromJson ids now content
  else ((extractAndCategorizeKeys ids now content).map jsOfApiKey, false)

/-! ## The CSV adapter (`parseCsvFile` in `fileUtils.ts`) -/

/-- A record as the CSV adapter builds it (`provider: detectedProvider as
any`): the provider can be `undefined` (`none`) when no explicit column is
present and the `name=value` re-extraction yields nothing. -/
structure CsvRecord where
  id : List Char
  name : List Char
  value : List Char
  provider : Option (List Char)
  dateAdded : List Char
  description : List Char
deriving DecidableEq, Repr

/-- Case-insensitive `findIndex` over the header cells for either of two
column names (`none` models `-1`). -/
def findIdxCI (l : List (List Char)) (a b : List Char) : Option Nat :=
  l.findIdx? (fun h => lowerAll h == a || lowerAll h == b)

/-- The row loop of `parseCsvFile`: skip blank rows, require enough columns,
take the explicit provider cell when present and non-empty, otherwise
re-extract `name=value` and project its provider (undefined when that yields
no record), or `"Other"` when name or value is empty. -/
def parseCsvLoop (ids : Nat → List Char) (now : List Char)
    (nameIdx valueIdx : Nat) (providerIdx : Option Nat) :
    List (List Char) → Nat → List CsvRecord
  | [], _ => []
  | line :: rest, i =>
    let l := trimChars line
    if l = [] then parseCsvLoop ids now nameIdx valueIdx providerIdx rest i
    else
      let values := (splitOnChar ',' l).map trimChars
      if values.length > max nameIdx valueIdx then
        let name := values.getD nameIdx []
        let value := values.getD valueIdx []
        let explicitProvider : Option (List Char) :=
          match providerIdx with
          | some p =>
            match values.get? p with
            | some w => if w = [] then none else some w
            | none => none
          | none => none
        let detected : Option (List Char) :=
          match explicitProvider with
          | some pv => some pv
          | none =>
            if name ≠ [] ∧ value ≠ [] then
              ((extractAndCategorizeKeys ids now (name ++ '=' :: value)).head?).map
                (fun r => r.provider)
            else some (("Other").toList)
        ⟨ids i, name, value, detected, now, []⟩ ::
          parseCsvLoop ids now nameIdx valueIdx providerIdx rest (i + 1)
      else parseCsvLoop ids now nameIdx valueIdx providerIdx rest i

/-- `parseCsvFile` of `fileUtils.ts`: split on `\n`, read the header, locate
the name and value columns (case-insensitively, with the `key` and `secret`
synonyms), and walk the remaining rows. -/
def parseCsvFile (ids : Nat → List Char) (now content : List Char) : List CsvRecord :=
  let lines := splitOnChar '\n' content
  if lines.length < 2 then []
  else
    let header := (splitOnChar ',' (lines.headD [])).map trimChars
    match findIdxCI header (("name").toList) (("key").toList),
        findIdxCI header (("value").toList) (("secret").toList) with
    | some nameIdx, some valueIdx =>
      parseCsvLoop ids now nameIdx valueIdx
        (findIdxCI header (("provider").toList) (("service").toList)) lines.tail 0
    | _, _ => []

/-! ## The export formatter (`formatApiKeysForExport` in `fileUtils.ts`) -/

/-- Rendering of one record as a JSON object, the field order that of the
record type; an absent `lastUsed` is omitted, as `JSON.stringify` omits
`undefined` properties. -/
def apiKeyToJson (k : ApiKey) : Json :=
  .obj ([((("id").toList : List Char), Json.str k.id), ((("name").toList : List Char), Json.str k.name),
         ((("value").toList : List Char), Json.str k.value),
         ((("provider").toList : List Char), Json.str k.provider),
         ((("description").toList : List Char), Json.str k.description),
         ((("dateAdded").toList : List Char), Json.str k.dateAdded)] ++
        (match k.lastUsed with
         | some u => [((("lastUsed").toList : List Char), Json.str u)]
         | none => []))

/-- Separator-joined concatenation (JavaScript `Array.prototype.join`). -/
def joinSep (sep : List Char) : List (List Char) → List Char
  | [] => []
  | [x] => x
  | x :: xs => x ++ sep ++ joinSep sep xs

/-- `formatApiKeysForExport` of `fileUtils.ts`: `.key` and `.json` export a
pretty-printed JSON array, `.env` exports `name=value` lines, `.csv` a fixed
header plus comma-joined rows, `.txt` exports `name: value` lines, anything
else the empty string. -/
def formatApiKeysForExport (keys : List ApiKey) (ext : List Char) : List Char :=
  if ext = (".key").toList ∨ ext = (".json").toList then
    stringifyP 0 (.arr (keys.map apiKeyToJson))
  else if ext = (".env").toList then
    joinSep ['\n'] (keys.map (fun k => k.name ++ '=' :: k.value))
  else if ext = (".csv").toList then
    joinSep ['\n'] ((("name,value,provider,description,dateAdded,lastUsed").toList) ::
      keys.map (fun k =>
        k.name ++ ',' :: (k.value ++ ',' :: (k.provider ++ ',' ::
          (k.description ++ ',' :: (k.dateAdded ++ ',' :: (k.lastUsed.getD [])))))))
  else if ext = (".txt").toList then
    joinSep ['\n'] (keys.map (fun k => k.name ++ ':' :: ' ' :: k.value))
  else []

/-- The string fields of a record in the order the export formatter renders
them. -/
def strFieldsOf (k : ApiKey) : List (List Char × List Char) :=
  [((("id").toList : List Char), k.id), ((("name").toList : List Char), k.name),
   ((("value").toList : List Char), k.value),
   ((("provider").toList : List Char), k.provider),
   ((("description").toList : List Char), k.description),
   ((("dateAdded").toList : List Char), k.dateAdded)] ++
  (match k.lastUsed with
   | some u => [((("lastUsed").toList : List Char), u)]
   | none => [])

/-! ## Utility lemmas about trimming and splitting -/

theorem dropWhile_idem (p : Char → Bool) (l : List Char) :
    (l.dropWhile p).dropWhile p = l.dropWhile p := by
  cases h : l.dropWhile p with
  | nil => rfl
  | cons c r =>
    have hc : p c = false := by
      have := List.head?_dropWhile_not p l
      rw [h] at this
      simpa using this
    simp [List.dropWhile, hc]

theorem dropWhile_append_cons (p : Char → Bool) (A B : List Char) (c : Char)
    (h : p c = false) : (A ++ c :: B).dropWhile p = A.dropWhile p ++ c :: B := by
  induction A with
  | nil => simp [List.dropWhile, h]
  | cons a A ih =>
    by_cases ha : p a
    · simpa [List.dropWhile, ha] using ih
    · simp [List.dropWhile, ha]

theorem takeWhile_append_cons (p : Char → Bool) (A B : List Char) (c : Char)
    (hA : ∀ a ∈ A, p a = true) (h : p c = false) : (A ++ c :: B).takeWhile p = A := by
  induction A with
  | nil => simp [List.takeWhile, h]
  | cons a A ih =>
    have ha : p a = true := hA a (by simp)
    have ih2 := ih (fun x hx => hA x (by simp [hx]))
    simpa [List.takeWhile, ha] using ih2

theorem dropWhile_append_cons_all (p : Char → Bool) (A B : List Char) (c : Char)
    (hA : ∀ a ∈ A, p a = true) (h : p c = false) : (A ++ c :: B).dropWhile p = c :: B := by
  rw [dropWhile_append_cons p A B c h, List.dropWhile_eq_nil_iff.mpr (by simpa using hA)]
  rfl

theorem trimLeftChars_cons_of (c : Char) (l : List Char) (h : isWsChar c = false) :
    trimLeftChars (c :: l) = c :: l := by
  simp [trimLeftChars, List.dropWhile, h]

theorem trimRightChars_append_cons (A B : List Char) (c : Char) (h : isWsChar c = false) :
    trimRightChars (A ++ c :: B) = A ++ c :: trimRightChars B := by
  unfold trimRightChars
  rw [show (A ++ c :: B).reverse = B.reverse ++ c :: A.reverse by simp,
    dropWhile_append_cons isWsChar B.reverse A.reverse c h]
  simp

theorem trimRightChars_cons (c : Char) (v : List Char) (h : isWsChar c = false) :
    trimRightChars (c :: v) = c :: trimRightChars v :=
  trimRightChars_append_cons [] v c h

theorem trimChars_cons_head (c : Char) (v : List Char) (h : isWsChar c = false) :
    trimChars (c :: v) = c :: trimRightChars v := by
  unfold trimChars
  rw [trimLeftChars_cons_of c v h, trimRightChars_cons c v h]

theorem trimRightChars_isPre (l : List Char) : trimRightChars l <+: l := by
  have h : l.reverse.dropWhile isWsChar <:+ l.reverse := List.dropWhile_suffix isWsChar
  have := List.reverse_prefix.mpr h
  simpa [trimRightChars] using this

theorem trimRightChars_idem (l : List Char) :
    trimRightChars (trimRightChars l) = trimRightChars l := by
  unfold trimRightChars
  rw [List.reverse_reverse, dropWhile_idem]

theorem trimChars_sub (l : List Char) : ∀ c ∈ trimChars l, c ∈ l := by
  intro c hc
  have h1 : c ∈ trimLeftChars l := (trimRightChars_isPre (trimLeftChars l)).subset hc
  exact (List.dropWhile_suffix isWsChar).subset h1

theorem prefix_head_aux (x l : List Char) (h : x <+: l) (hne : x ≠ []) :
    x.head? = l.head? := by
  obtain ⟨t, rfl⟩ := h
  cases x with
  | nil => simp at hne
  | cons a r => simp

theorem trimChars_head_not_ws (l : List Char) (c : Char) (r : List Char)
    (h : trimChars l = c :: r) : isWsChar c = false := by
  have hpre : trimChars l <+: trimLeftChars l := trimRightChars_isPre (trimLeftChars l)
  have hh : (trimLeftChars l).head? = some c := by
    rw [← prefix_head_aux (trimChars l) (trimLeftChars l) hpre (by rw [h]; simp)]
    rw [h]; rfl
  cases hdw : trimLeftChars l with
  | nil => rw [hdw] at hh; simp at hh
  | cons a r2 =>
    rw [hdw] at hh
    have ha : isWsChar a = false := by
      have := List.head?_dropWhile_not isWsChar l
      unfold trimLeftChars at hdw
      rw [hdw] at this
      simpa using this
    have : a = c := by simpa using hh
    rwa [this] at ha

theorem trimRight_of_trimChars_eq (v : List Char) (h : trimChars v = v) :
    trimRightChars v = v := by
  have h1 : (trimRightChars (trimLeftChars v)).length ≤ (trimLeftChars v).length :=
    (trimRightChars_isPre (trimLeftChars v)).length_le
  have h2 : (trimLeftChars v).length ≤ v.length := (List.dropWhile_suffix isWsChar).length_le
  have hlen : (trimLeftChars v).length = v.length := by
    have : (trimChars v).length = v.length := by rw [h]
    unfold trimChars at this
    omega
  have hl : trimLeftChars v = v := (List.dropWhile_suffix isWsChar).eq_of_length hlen
  calc trimRightChars v = trimChars v := by unfold trimChars; rw [hl]
    _ = v := h

theorem splitFirstEq_append (k v : List Char) (hne : k ≠ [])
    (hall : ∀ a ∈ k, notEqColon a = true)
    (hterm : ∀ a ∈ v, isLineTerm a = false) :
    splitFirstEq (k ++ '=' :: v) = some (k, v) := by
  unfold splitFirstEq
  rw [dropWhile_append_cons_all notEqColon k v '=' hall (by decide),
    takeWhile_append_cons notEqColon k v '=' hall (by decide)]
  have hterm' : v.any isLineTerm = false := by
    rw [List.any_eq_false]
    intro a ha
    simp [hterm a ha]
  simp [hne, hterm']

theorem splitFirstEq_cons_eq (w : List Char) : splitFirstEq ('=' :: w) = none := by
  unfold splitFirstEq
  simp [List.dropWhile, List.takeWhile, notEqColon]

theorem splitFirstColon_none (l : List Char) (h : ':' ∉ l) : splitFirstColon l = none := by
  unfold splitFirstColon
  rw [List.dropWhile_eq_nil_iff.mpr (by
    intro x hx
    simp only [notColon, Bool.not_eq_true']
    simp only [decide_eq_false_iff_not]
    rintro rfl
    exact h hx)]

theorem splitFirstEq_inv (l pre post : List Char) (h : splitFirstEq l = some (pre, post)) :
    pre = l.takeWhile notEqColon ∧ pre ≠ [] := by
  unfold splitFirstEq at h
  split at h
  · split_ifs at h with h1 h2
    injection h with h3
    obtain ⟨h4, -⟩ := Prod.mk.inj h3
    refine ⟨h4.symm, ?_⟩
    rw [← h4]
    exact h1
  · exact absurd h (by simp)

theorem splitFirstEq_post (l pre post : List Char)
    (h : splitFirstEq l = some (pre, post)) : ∀ a ∈ post, isLineTerm a = false := by
  unfold splitFirstEq at h
  split at h
  · next post0 heq =>
    split_ifs at h with h1 h2
    injection h with h3
    obtain ⟨-, h4⟩ := Prod.mk.inj h3
    have h2' : post0.any isLineTerm = false := by simpa using h2
    intro a ha
    rw [← h4] at ha
    simpa using List.any_eq_false.mp h2' a ha
  · exact absurd h (by simp)

theorem splitFirstColon_inv (l pre post : List Char) (h : splitFirstColon l = some (pre, post)) :
    pre = l.takeWhile notColon ∧ pre ≠ [] := by
  unfold splitFirstColon at h
  split at h
  · split_ifs at h with h1 h2
    injection h with h3
    obtain ⟨h4, -⟩ := Prod.mk.inj h3
    refine ⟨h4.symm, ?_⟩
    rw [← h4]
    exact h1
  · exact absurd h (by simp)

theorem splitFirstColon_post (l pre post : List Char)
    (h : splitFirstColon l = some (pre, post)) : ∀ a ∈ post, isLineTerm a = false := by
  unfold splitFirstColon at h
  split at h
  · next post0 heq =>
    split_ifs at h with h1 h2
    injection h with h3
    obtain ⟨-, h4⟩ := Prod.mk.inj h3
    have h2' : post0.any isLineTerm = false := by simpa using h2
    intro a ha
    rw [← h4] at ha
    simpa using List.any_eq_false.mp h2' a ha
  · exact absurd h (by simp)

theorem extract_rejected (line t : List Char) (ht : trimChars line = t)
    (h : t = [] ∨ t.head? = some '#' ∨ ("//").toList.isPrefixOf t = true ∨
      isHttpUrlStart t = true) : extractKeyValuePair line = none := by
  unfold extractKeyValuePair
  rw [ht]
  dsimp only
  split_ifs with g1 g2 g3 g4
  · rfl
  · rfl
  · rfl
  · rfl
  · rcases h with h | h | h | h
    · exact absurd h g1
    · exact absurd h g2
    · exact absurd h g3
    · exact absurd h g4

theorem extract_guards_pass (line t : List Char) (ht : trimChars line = t) (h1 : t ≠ [])
    (h2 : t.head? ≠ some '#') (h3 : ("//").toList.isPrefixOf t = false)
    (h4 : isHttpUrlStart t = false) :
    extractKeyValuePair line =
      match splitFirstEq t with
      | some (pre, post) => some (trimChars pre, stripQuotes (trimChars post))
      | none =>
        match splitFirstColon t with
        | some (pre, post) =>
          if lowerAll (trimChars pre) = ("http").toList ∨
              lowerAll (trimChars pre) = ("https").toList ∨
              ("//").toList.isPrefixOf (trimChars post) then none
          else some (trimChars pre, stripQuotes (trimChars post))
        | none => none := by
  unfold extractKeyValuePair
  rw [ht]
  dsimp only
  rw [if_neg h1, if_neg h2, if_neg (by simp only [h3]; simp), if_neg (by simp only [h4]; simp)]

theorem isHttpUrlStart_key_false (k v : List Char) (hcol : ':' ∉ k) :
    isHttpUrlStart (k ++ '=' :: v) = false := by
  rcases k with _ | ⟨a, _ | ⟨b, _ | ⟨c, _ | ⟨d, _ | ⟨e, rest⟩⟩⟩⟩⟩
  · simp [isHttpUrlStart, charIsCI]
  · simp [isHttpUrlStart, charIsCI]
  · simp [isHttpUrlStart, urlAfterHt, charIsCI]
  · simp [isHttpUrlStart, urlAfterHt, charIsCI]
  · simp [isHttpUrlStart, urlAfterHt, urlAfterHttp, urlColonSlashes, charIsCI]
  · have he : ¬(e = ':') := fun hh => hcol (by simp [hh])
    rcases rest with _ | ⟨f, rest2⟩
    · simp [isHttpUrlStart, urlAfterHt, urlAfterHttp, urlColonSlashes, charIsCI, he]
    · have hf : ¬(f = ':') := fun hh => hcol (by simp [hh])
      simp [isHttpUrlStart, urlAfterHt, urlAfterHttp, urlColonSlashes, charIsCI, he, hf]

theorem splitLines_single (l : List Char) (h : '\n' ∉ l) (h2 : '\r' ∉ l) :
    splitLinesJs l = [l] := by
  induction l with
  | nil => rfl
  | cons c r ih =>
    have hc : ¬(c = '\n') := fun hh => h (by simp [hh])
    have hn : '\n' ∉ r := fun hh => h (by simp [hh])
    have hrr : '\r' ∉ r := fun hh => h2 (by simp [hh])
    rw [splitLinesJs.eq_def]
    split
    · next heq => exact absurd heq (by simp)
    · next rest heq =>
      rcases List.cons.inj heq with ⟨h1, h3⟩
      exact absurd (h3 ▸ List.mem_cons_self '\n' rest) hn
    · next rest heq =>
      rcases List.cons.inj heq with ⟨h1, h3⟩
      exact absurd h1 hc
    · next heq =>
      rcases List.cons.inj heq with ⟨hc1, hr1⟩
      rw [← hr1, ih hn hrr, ← hc1]

/-! ## Claim C9: the key-format validator -/

/-- Claim C9: `isValidKeyFormat` returns `false` for every string containing a
literal dot regardless of other content, returns `false` for every string
containing one of the special characters of the rejection class, and returns
`true` for every other string. -/
theorem C9_isValidKeyFormat_characterization :
    (∀ key : List Char, '.' ∈ key → isValidKeyFormat key = false) ∧
    (∀ key : List Char, ∀ c ∈ key, c ∈ invalidKeyChars → isValidKeyFormat key = false) ∧
    (∀ key : List Char, '.' ∉ key → (∀ c ∈ key, c ∉ invalidKeyChars) →
      isValidKeyFormat key = true) := by
  refine ⟨?_, ?_, ?_⟩
  · intro key h
    unfold isValidKeyFormat
    rw [if_pos (by simpa using h)]
  · intro key c hc hmem
    unfold isValidKeyFormat
    by_cases hdot : key.contains '.'
    · rw [if_pos hdot]
    · rw [if_neg hdot, if_pos (by simp only [List.any_eq_true]; exact ⟨c, hc, by simpa using hmem⟩)]
  · intro key h1 h2
    unfold isValidKeyFormat
    rw [if_neg (by simpa using h1),
      if_neg (by simp only [List.any_eq_true]; rintro ⟨x, hx, hmem⟩; exact h2 x hx (by simpa using hmem))]

/-- Witness for C9 at concrete keys: a dotted key and a slashed key are
rejected, a plain key is accepted. -/
theorem C9_witness :
    isValidKeyFormat (("A.B").toList) = false ∧
    isValidKeyFormat (("A/B").toList) = false ∧
    isValidKeyFormat (("GOOD_KEY-1 x").toList) = true :=
  ⟨C9_isValidKeyFormat_characterization.1 (("A.B").toList) (by decide),
   C9_isValidKeyFormat_characterization.2.1 (("A/B").toList) '/' (by decide) (by decide),
   C9_isValidKeyFormat_characterization.2.2 (("GOOD_KEY-1 x").toList) (by decide) (by decide)⟩

/-! ## Claim C1: the classifier's iteration order and first-match policy -/

theorem detectLoop_eq_find (table : List (List Char × List PatternRule)) (n v : List Char) :
    detectLoop table n v =
      match table.find? (fun pr => pr.2.any (fun r => ruleMatches r n v)) with
      | some pr => pr.1
      | none => ("Other").toList := by
  induction table with
  | nil => rfl
  | cons hd rest ih =>
    obtain ⟨prov, rules⟩ := hd
    by_cases h : rules.any (fun r => ruleMatches r n v)
    · simp [detectLoop, List.find?_cons, h]
    · simp [detectLoop, List.find?_cons, h, ih]

/-- Claim C1: `detectProvider` iterates the providers in the fixed declaration
order OpenAI, Google, Anthropic, Azure, HuggingFace, AWS, and within each
provider its rule list in declared order; a rule matches when its key matcher
accepts the name or its value matcher accepts the value, an absent matcher
being ignored; the first provider owning a matching rule is returned, and
`Other` when no rule of the whole table matches.  The loop is proved equal to
the specification reading `detectProviderSpec` (first table entry with a
matching rule, `Other` as default), and the table's provider order is pinned. -/
theorem C1_detectProvider_first_match :
    PROVIDER_PATTERNS.map Prod.fst =
      [("OpenAI").toList, ("Google").toList, ("Anthropic").toList, ("Azure").toList,
       ("HuggingFace").toList, ("AWS").toList] ∧
    ∀ name value : List Char, detectProvider name value = detectProviderSpec name value := by
  constructor
  · rfl
  · intro n v
    unfold detectProvider detectProviderSpec
    exact detectLoop_eq_find PROVIDER_PATTERNS n v

/-- Witness for C1 at a concrete input exercising a later provider's rule. -/
theorem C1_witness :
    detectProvider (("MY_HF_API_KEY").toList) [] =
      detectProviderSpec (("MY_HF_API_KEY").toList) [] :=
  C1_detectProvider_first_match.2 (("MY_HF_API_KEY").toList) []

/-! ## Claim C8: rejected lines -/

/-- Claim C8: for every input line whose trimmed form is empty, starts with
`#`, starts with `//`, or begins with the URL prefix `http` or `https` then
`colon-slash-slash` (case-insensitively), the tokenizer returns `none`, and
(when the text is a single line) the line-oriented adapter produces no
record from it. -/
theorem C8_rejected_lines :
    ∀ line : List Char,
      (trimChars line = [] ∨ (trimChars line).head? = some '#' ∨
        ("//").toList.isPrefixOf (trimChars line) = true ∨
        isHttpUrlStart (trimChars line) = true) →
      extractKeyValuePair line = none ∧
      ('\n' ∉ line → '\r' ∉ line → ∀ (ids : Nat → List Char) (now : List Char),
        extractAndCategorizeKeys ids now line = []) := by
  intro line h
  have h1 : extractKeyValuePair line = none := extract_rejected line _ rfl h
  refine ⟨h1, ?_⟩
  intro hnl hcr ids now
  unfold extractAndCategorizeKeys
  rw [splitLines_single line hnl hcr]
  simp [extractLoop, h1]

/-- Witness for C8 at the spec's URL scenario. -/
theorem C8_witness :
    extractKeyValuePair (("https://example.com/path").toList) = none ∧
    extractAndCategorizeKeys (fun _ => []) [] (("https://example.com/path").toList) = [] :=
  ⟨(C8_rejected_lines (("https://example.com/path").toList)
      (Or.inr (Or.inr (Or.inr (by decide))))).1,
   (C8_rejected_lines (("https://example.com/path").toList)
      (Or.inr (Or.inr (Or.inr (by decide))))).2 (by decide) (by decide) (fun _ => []) []⟩

/-! ## Claim C2: lines of the form `=VALUE` -/

/-- Counterexample to claim C2: on the input `=VALUE` the tokenizer returns
`none` rather than a pair with an empty key (the `=`-form regex requires at
least one character before the `=`; the repository's own test table also
expects `null` here). -/
theorem C2_counterexample : extractKeyValuePair (("=VALUE").toList) = none := by decide

/-- Amended claim C2: an input line of the form `=VALUE`, where `VALUE`
contains no colon, is rejected by the tokenizer (both the `=` form, which
needs a non-empty key, and the `:` form, which needs a colon, fail); no
empty-string key is ever produced from such a line. -/
theorem C2_eq_headed_rejected :
    ∀ v : List Char, ':' ∉ v → extractKeyValuePair ('=' :: v) = none := by
  intro v hv
  have htrim : trimChars ('=' :: v) = '=' :: trimRightChars v :=
    trimChars_cons_head '=' v (by decide)
  have hcolon : ':' ∉ '=' :: trimRightChars v := by
    intro hmem
    rcases List.mem_cons.mp hmem with h | h
    · exact absurd h (by decide)
    · exact hv ((trimRightChars_isPre v).subset h)
  rw [extract_guards_pass ('=' :: v) ('=' :: trimRightChars v) htrim (by simp)
    (by simp) (by simp [List.isPrefixOf]) (by simp [isHttpUrlStart, charIsCI])]
  rw [splitFirstEq_cons_eq, splitFirstColon_none _ hcolon]

/-- Witness for the amended C2 at the concrete line `=VALUE`. -/
theorem C2_witness : extractKeyValuePair ('=' :: ("VALUE").toList) = none :=
  C2_eq_headed_rejected (("VALUE").toList) (by decide)

/-! ## Claim C3: where the tokenizer splits -/

/-- Counterexample to claim C3: the line `a:b=c` contains an `=`, yet the
tokenizer does not split at the first `=` (which would give the pair
`(a:b, c)`); because the `=`-form regex forbids `:` before the `=`, the line
is split at the `:` instead. -/
theorem C3_counterexample :
    extractKeyValuePair (("a:b=c").toList) = some (("a").toList, ("b=c").toList) ∧
    extractKeyValuePair (("a:b=c").toList) ≠ some (("a:b").toList, ("c").toList) := by
  constructor
  · decide
  · decide

/-- Amended claim C3: for every trimmed, non-rejected line whose first `=` has
a non-empty left side containing neither `=` nor `:`, and whose text after
that `=` contains no line terminator (the regex part `(.*)$` fails otherwise:
`.` does not match line terminators and the unflagged `$` only matches at the
end of the input), the tokenizer splits at that `=`: the key is the left side
trimmed and the value is the right side trimmed (then stripped of one layer of
surrounding quotes, §4.1 step 4).  The `:` form is reached only when this
fails — in particular, as the counterexample shows, a line whose first `=` is
preceded by a `:` is split at the `:` even though it contains an `=`. -/
theorem C3_split_at_eq :
    ∀ line pre post : List Char,
      trimChars line = pre ++ '=' :: post → pre ≠ [] → '=' ∉ pre → ':' ∉ pre →
      (∀ a ∈ post, isLineTerm a = false) →
      pre.head? ≠ some '#' → ("//").toList.isPrefixOf (pre ++ '=' :: post) = false →
      extractKeyValuePair line = some (trimChars pre, stripQuotes (trimChars post)) := by
  intro line pre post ht hne heq hcol hterm hhash hslash
  have hall : ∀ a ∈ pre, notEqColon a = true := by
    intro a ha
    simp only [notEqColon, Bool.not_eq_true', Bool.or_eq_false_iff, decide_eq_false_iff_not]
    exact ⟨fun hh => heq (hh ▸ ha), fun hh => hcol (hh ▸ ha)⟩
  have hhead : (pre ++ '=' :: post).head? ≠ some '#' := by
    cases pre with
    | nil => exact absurd rfl hne
    | cons a r => simpa using hhash
  rw [extract_guards_pass line (pre ++ '=' :: post) ht (by simp) hhead hslash
    (isHttpUrlStart_key_false pre post hcol)]
  rw [splitFirstEq_append pre post hne hall hterm]

/-- Witness for the amended C3 at the concrete line `A = b`. -/
theorem C3_witness :
    extractKeyValuePair (("A = b").toList) =
      some (trimChars (("A ").toList), stripQuotes (trimChars ((" b").toList))) :=
  C3_split_at_eq (("A = b").toList) (("A ").toList) ((" b").toList)
    (by decide) (by decide) (by decide) (by decide) (by decide) (by decide)
    (by decide)

/-! ## Claim C7: re-tokenizing a tokenized pair -/

theorem stripQuotes_id (v : List Char) (hq1 : v.head? ≠ some '"') (hq2 : v.head? ≠ some '\'') :
    stripQuotes v = v := by
  unfold stripQuotes
  rw [if_neg (fun hh => hq1 hh.2.1), if_neg (fun hh => hq2 hh.2.1)]

theorem key_facts_common (line t pre : List Char) (htr : trimChars line = t)
    (ht_hash : t.head? ≠ some '#') (ht_slash : ("//").toList.isPrefixOf t = false)
    (hpre : pre <+: t) (hne : pre ≠ []) (hcol : ∀ a ∈ pre, ¬(a = ':')) :
    trimChars (trimChars pre) = trimChars pre ∧ trimChars pre ≠ [] ∧
    ':' ∉ trimChars pre ∧ (trimChars pre).head? ≠ some '#' ∧
    ("//").toList.isPrefixOf (trimChars pre) = false := by
  obtain ⟨tt, htt⟩ := hpre
  cases pre with
  | nil => exact absurd rfl hne
  | cons c pre' =>
    have htc : t = c :: (pre' ++ tt) := by rw [← htt]; rfl
    have hcws : isWsChar c = false := trimChars_head_not_ws line c (pre' ++ tt) (htr.trans htc)
    have hstep : trimChars (c :: pre') = c :: trimRightChars pre' := trimChars_cons_head c pre' hcws
    have hchash : ¬(c = '#') := by
      intro hh
      rw [htc] at ht_hash
      exact ht_hash (by rw [hh]; rfl)
    refine ⟨?_, ?_, ?_, ?_, ?_⟩
    · rw [hstep, trimChars_cons_head c (trimRightChars pre') hcws, trimRightChars_idem]
    · rw [hstep]
      simp
    · rw [hstep]
      intro hmem
      rcases List.mem_cons.mp hmem with h | h
      · exact hcol c (by simp) h.symm
      · exact hcol ':' (by simp [(trimRightChars_isPre pre').subset h]) rfl
    · rw [hstep]
      intro hh
      exact hchash (by simpa using hh)
    · rw [hstep]
      cases hpl : trimRightChars pre' with
      | nil => simp [List.isPrefixOf]
      | cons b rest =>
        have hb : pre'.head? = some b := by
          rw [← prefix_head_aux (trimRightChars pre') pre' (trimRightChars_isPre pre')
            (by rw [hpl]; simp), hpl]
          rfl
        cases pre'' : pre' with
        | nil => rw [pre''] at hb; exact absurd hb (by simp)
        | cons b2 rest2 =>
          rw [pre''] at hb
          have hbb : b2 = b := by simpa using hb
          by_cases hcslash : c = '/'
          · by_cases hbslash : b = '/'
            · exfalso
              rw [htc, pre''] at ht_slash
              simp [List.isPrefixOf, hcslash, hbb, hbslash] at ht_slash
            · simp only [List.isPrefixOf]
              simp
              exact fun _ hh => hbslash hh.symm
          · simp only [List.isPrefixOf]
            simp
            exact fun hh => absurd hh.symm hcslash

theorem tokenize_key_facts (line k v : List Char)
    (h : extractKeyValuePair line = some (k, v)) :
    trimChars k = k ∧ k ≠ [] ∧ ':' ∉ k ∧ k.head? ≠ some '#' ∧
    ("//").toList.isPrefixOf k = false := by
  unfold extractKeyValuePair at h
  dsimp only at h
  split_ifs at h with g1 g2 g3 g4
  split at h
  · next pre post heq =>
    injection h with h2
    obtain ⟨hk, -⟩ := Prod.mk.inj h2
    obtain ⟨hpre, hne⟩ := splitFirstEq_inv (trimChars line) pre post heq
    have hcol : ∀ a ∈ pre, ¬(a = ':') := by
      intro a ha hh
      have := List.mem_takeWhile_imp (hpre ▸ ha)
      simp [notEqColon, hh] at this
    rw [← hk]
    exact key_facts_common line (trimChars line) pre rfl g2 (by simp only [Bool.not_eq_true] at g3; exact g3)
      (hpre ▸ List.takeWhile_prefix notEqColon) hne hcol
  · next heq =>
    split at h
    · next pre post heq2 =>
      split_ifs at h with g5
      injection h with h2
      obtain ⟨hk, -⟩ := Prod.mk.inj h2
      obtain ⟨hpre, hne⟩ := splitFirstColon_inv (trimChars line) pre post heq2
      have hcol : ∀ a ∈ pre, ¬(a = ':') := by
        intro a ha hh
        have := List.mem_takeWhile_imp (hpre ▸ ha)
        simp [notColon, hh] at this
      rw [← hk]
      exact key_facts_common line (trimChars line) pre rfl g2 (by simp only [Bool.not_eq_true] at g3; exact g3)
        (hpre ▸ List.takeWhile_prefix notColon) hne hcol
    · next => exact absurd h (by simp)

theorem stripQuotes_sub (v : List Char) : ∀ a ∈ stripQuotes v, a ∈ v := by
  intro a ha
  unfold stripQuotes at ha
  split_ifs at ha
  · exact List.drop_subset 1 v (List.dropLast_subset _ ha)
  · exact List.drop_subset 1 v (List.dropLast_subset _ ha)
  · exact ha

theorem tokenize_value_term (line k v : List Char)
    (h : extractKeyValuePair line = some (k, v)) : ∀ a ∈ v, isLineTerm a = false := by
  unfold extractKeyValuePair at h
  dsimp only at h
  split_ifs at h with g1 g2 g3 g4
  split at h
  · next pre post heq =>
    injection h with h2
    obtain ⟨-, hv⟩ := Prod.mk.inj h2
    have hpost := splitFirstEq_post (trimChars line) pre post heq
    intro a ha
    rw [← hv] at ha
    exact hpost a (trimChars_sub post a (stripQuotes_sub (trimChars post) a ha))
  · next heq =>
    split at h
    · next pre post heq2 =>
      split_ifs at h with g5
      injection h with h2
      obtain ⟨-, hv⟩ := Prod.mk.inj h2
      have hpost := splitFirstColon_post (trimChars line) pre post heq2
      intro a ha
      rw [← hv] at ha
      exact hpost a (trimChars_sub post a (stripQuotes_sub (trimChars post) a ha))
    · next => exact absurd h (by simp)

theorem tokenize_rejoin (k v : List Char) (hkt : trimChars k = k) (hkne : k ≠ [])
    (hkeq : '=' ∉ k) (hkcol : ':' ∉ k) (hkhash : k.head? ≠ some '#')
    (hkslash : ("//").toList.isPrefixOf k = false)
    (hvt : trimChars v = v) (hvterm : ∀ a ∈ v, isLineTerm a = false)
    (hq1 : v.head? ≠ some '"') (hq2 : v.head? ≠ some '\'') :
    extractKeyValuePair (k ++ '=' :: v) = some (k, v) := by
  cases k with
  | nil => exact absurd rfl hkne
  | cons c k' =>
    have hcws : isWsChar c = false := trimChars_head_not_ws (c :: k') c k' hkt
    have hvr : trimRightChars v = v := trimRight_of_trimChars_eq v hvt
    have htrim : trimChars ((c :: k') ++ '=' :: v) = (c :: k') ++ '=' :: v := by
      rw [show (c :: k') ++ '=' :: v = c :: (k' ++ '=' :: v) from rfl,
        trimChars_cons_head c (k' ++ '=' :: v) hcws,
        trimRightChars_append_cons k' v '=' (by decide), hvr]
    have hall : ∀ a ∈ c :: k', notEqColon a = true := by
      intro a ha
      simp only [notEqColon, Bool.not_eq_true', Bool.or_eq_false_iff, decide_eq_false_iff_not]
      exact ⟨fun hh => hkeq (hh ▸ ha), fun hh => hkcol (hh ▸ ha)⟩
    have hslash : ("//").toList.isPrefixOf ((c :: k') ++ '=' :: v) = false := by
      cases k' with
      | nil => simp [List.isPrefixOf]
      | cons b k'' =>
        simp only [List.isPrefixOf, List.cons_append] at hkslash ⊢
        simpa using (by simpa using hkslash)
    rw [extract_guards_pass ((c :: k') ++ '=' :: v) ((c :: k') ++ '=' :: v) htrim
      (by simp) (by simpa using hkhash) hslash (isHttpUrlStart_key_false (c :: k') v hkcol)]
    rw [splitFirstEq_append (c :: k') v hkne hall hvterm]
    show some (trimChars (c :: k'), stripQuotes (trimChars v)) = some (c :: k', v)
    rw [hkt, hvt, stripQuotes_id v hq1 hq2]

/-- Counterexample to claim C7: the line `=a:b` tokenizes (through the `:`
form) to the pair with key `=a` and value `b` — a value with no embedded `=`
and no quotes — yet re-tokenizing the re-joined string `=a=b` yields `none`,
not the same pair. -/
theorem C7_counterexample :
    extractKeyValuePair (("=a:b").toList) = some (("=a").toList, ("b").toList) ∧
    extractKeyValuePair (("=a").toList ++ '=' :: ("b").toList) = none := by
  constructor
  · decide
  · decide

/-- Amended claim C7: the tokenizer is idempotent on well-formed `key=value`
lines: if tokenizing a line yields the pair `(key, value)`, where the value
contains no embedded `=` and no quotes, and additionally the key contains no
`=` (ruling out keys the `:` form produced from an `=`-headed line) and the
value carries no surrounding whitespace (ruled in by quote stripping), then
tokenizing `key ++ "=" ++ value` yields the same pair. -/
theorem C7_retokenize_idempotent :
    ∀ line k v : List Char, extractKeyValuePair line = some (k, v) →
      '=' ∉ k → '=' ∉ v → trimChars v = v → '"' ∉ v → '\'' ∉ v →
      extractKeyValuePair (k ++ '=' :: v) = some (k, v) := by
  intro line k v h hkeq hveq hvt hq1 hq2
  obtain ⟨hkt, hkne, hkcol, hkhash, hkslash⟩ := tokenize_key_facts line k v h
  refine tokenize_rejoin k v hkt hkne hkeq hkcol hkhash hkslash hvt
    (tokenize_value_term line k v h) ?_ ?_
  · intro hh
    cases v with
    | nil => simp at hh
    | cons a r =>
      have ha : a = '"' := by simpa using hh
      exact hq1 (by simp [ha])
  · intro hh
    cases v with
    | nil => simp at hh
    | cons a r =>
      have ha : a = '\'' := by simpa using hh
      exact hq2 (by simp [ha])

/-- Witness for the amended C7 at the concrete line `A=b`. -/
theorem C7_witness :
    extractKeyValuePair (("A").toList ++ '=' :: ("b").toList) =
      some (("A").toList, ("b").toList) :=
  C7_retokenize_idempotent (("A=b").toList) (("A").toList) (("b").toList)
    (by decide) (by decide) (by decide) (by decide) (by decide) (by decide)

/-! ## Claim C4: emptiness filtering across the adapter paths -/

theorem extractLoop_mem (ids : Nat → List Char) (now : List Char)
    (lines : List (List Char)) (i : Nat) (r : ApiKey)
    (h : r ∈ extractLoop ids now lines i) :
    r.name ≠ [] ∧ r.value ≠ [] ∧ r.provider = detectProvider r.name r.value := by
  induction lines generalizing i with
  | nil => simp [extractLoop] at h
  | cons line rest ih =>
    simp only [extractLoop] at h
    cases hp : extractKeyValuePair line with
    | none =>
      rw [hp] at h
      exact ih (i := i) h
    | some p =>
      obtain ⟨k, v⟩ := p
      rw [hp] at h
      dsimp only at h
      split_ifs at h with hkv hvalid
      · rcases List.mem_cons.mp h with hr | hr
        · rw [hr]
          exact ⟨hkv.1, hkv.2, rfl⟩
        · exact ih (i := i + 1) hr
      · exact ih (i := i) h
      · exact ih (i := i) h

theorem jsTruthyOpt_getD (o : Option Json) (h : jsTruthyOpt o = true) :
    jsTruthy (o.getD Json.null) = true := by
  cases o with
  | none => simp [jsTruthyOpt] at h
  | some j => simpa [jsTruthyOpt] using h

theorem mapItems_mem (ids : Nat → List Char) (now : List Char)
    (items : List Json) (i : Nat) (rs : List JsRecord)
    (h : mapItems ids now items i = some rs) :
    ∀ r ∈ rs, jsTruthy r.name = true ∧ jsTruthy r.value = true := by
  induction items generalizing i rs with
  | nil =>
    simp only [mapItems] at h
    injection h with h2
    rw [← h2]
    simp
  | cons item rest ih =>
    simp only [mapItems] at h
    cases item with
    | null => exact absurd h (by simp)
    | obj fields =>
      dsimp only at h
      split_ifs at h with hguard
      · cases hm : mapItems ids now rest (i + 1) with
        | none => rw [hm] at h; exact absurd h (by simp)
        | some rs' =>
          rw [hm] at h
          injection h with h2
          rw [← h2]
          intro r hr
          rcases List.mem_cons.mp hr with hr | hr
          · rw [hr]
            exact ⟨jsTruthyOpt_getD _ hguard.1, jsTruthyOpt_getD _ hguard.2⟩
          · exact ih (i + 1) rs' hm r hr
      · exact ih i rs h
    | bool b => exact ih i rs (by dsimp only at h; exact h)
    | num n => exact ih i rs (by dsimp only at h; exact h)
    | str s => exact ih i rs (by dsimp only at h; exact h)
    | arr xs => exact ih i rs (by dsimp only at h; exact h)

/-- Counterexample to claim C4: importing the JSON object text with one entry
whose key and value are both the empty string makes the JSON object adapter
emit a record whose `name` and `value` are both empty — the object path
performs no emptiness filtering before assembling a record. -/
theorem C4_counterexample :
    extractKeysFromFile (fun _ => ("u").toList) (("t").toList)
      ['{', '"', '"', ':', '"', '"', '}'] ((".json").toList) =
      ([⟨Json.str (("u").toList), Json.str [], Json.str [], Json.str (("Other").toList),
         Json.str [], Json.str (("t").toList), none⟩], false) ∧
    ((extractKeysFromFile (fun _ => ("u").toList) (("t").toList)
      ['{', '"', '"', ':', '"', '"', '}'] ((".json").toList)).1.map
        (fun r => r.name)) = [Json.str []] :=
  ⟨rfl, rfl⟩

/-- Amended claim C4: in the line-oriented adapter path every emitted record
has a non-empty name and value (empty pairs are filtered before assembly), and
in the JSON array path every emitted record has a truthy (in particular
non-empty, when a string) name and value; the JSON object path and the CSV
path perform no such filtering, and — as the counterexample records — can
emit records with empty name or value. -/
theorem C4_nonempty_name_value :
    (∀ (ids : Nat → List Char) (now content : List Char) (r : ApiKey),
      r ∈ extractAndCategorizeKeys ids now content → r.name ≠ [] ∧ r.value ≠ []) ∧
    (∀ (ids : Nat → List Char) (now : List Char) (items : List Json) (i : Nat)
      (rs : List JsRecord) (r : JsRecord), mapItems ids now items i = some rs → r ∈ rs →
      jsTruthy r.name = true ∧ jsTruthy r.value = true) := by
  constructor
  · intro ids now content r h
    have := extractLoop_mem ids now (splitLinesJs content) 0 r h
    exact ⟨this.1, this.2.1⟩
  · intro ids now items i rs r h hr
    exact mapItems_mem ids now items i rs h r hr

/-- Witness for the amended C4: a concrete line-path record and a concrete
array-path record, with their emptiness facts obtained from the theorem. -/
theorem C4_witness :
    ((⟨("u").toList, ("A").toList, ("b").toList, ("Other").toList, [], ("t").toList,
        none⟩ : ApiKey).name ≠ [] ∧
      (⟨("u").toList, ("A").toList, ("b").toList, ("Other").toList, [], ("t").toList,
        none⟩ : ApiKey).value ≠ []) ∧
    (jsTruthy (Json.str (("A").toList)) = true ∧ jsTruthy (Json.str (("b").toList)) = true) :=
  ⟨C4_nonempty_name_value.1 (fun _ => ("u").toList) (("t").toList) (("A=b").toList)
      ⟨("u").toList, ("A").toList, ("b").toList, ("Other").toList, [], ("t").toList, none⟩
      (by decide),
   C4_nonempty_name_value.2 (fun _ => ("u").toList) (("t").toList)
      [Json.obj [((("name").toList : List Char), Json.str (("A").toList)),
                 ((("value").toList : List Char), Json.str (("b").toList)),
                 ((("provider").toList : List Char), Json.str (("P").toList))]] 0
      [⟨Json.str (("u").toList), Json.str (("A").toList), Json.str (("b").toList),
        Json.str (("P").toList), Json.str [], Json.str (("t").toList), none⟩]
      ⟨Json.str (("u").toList), Json.str (("A").toList), Json.str (("b").toList),
        Json.str (("P").toList), Json.str [], Json.str (("t").toList), none⟩
      (by rfl) (List.mem_singleton.mpr rfl)⟩

/-! ## Claim C5: the provider enumeration -/

theorem detectLoop_mem_cons (table : List (List Char × List PatternRule)) (n v : List Char) :
    detectLoop table n v = ("Other").toList ∨ detectLoop table n v ∈ table.map Prod.fst := by
  induction table with
  | nil => exact Or.inl rfl
  | cons hd rest ih =>
    obtain ⟨prov, rules⟩ := hd
    by_cases h : rules.any (fun r => ruleMatches r n v)
    · right
      simp [detectLoop, h]
    · rcases ih with h2 | h2
      · left
        simpa [detectLoop, h] using h2
      · right
        simp only [detectLoop, h]
        simp [h2]

theorem detectProvider_mem_enum (n v : List Char) :
    detectProvider n v ∈ API_KEY_PROVIDERS := by
  rcases detectLoop_mem_cons PROVIDER_PATTERNS n v with h | h
  · unfold detectProvider
    rw [h]
    decide
  · have hsub : ∀ x ∈ PROVIDER_PATTERNS.map Prod.fst, x ∈ API_KEY_PROVIDERS := by decide
    exact hsub _ h

theorem jsonObjectLoop_provider (ids : Nat → List Char) (now : List Char)
    (entries : List (List Char × Json)) (i : Nat) (r : ApiKey)
    (h : r ∈ jsonObjectLoop ids now entries i) :
    r.provider = detectProvider r.name r.value := by
  induction entries generalizing i with
  | nil => simp [jsonObjectLoop] at h
  | cons e rest ih =>
    obtain ⟨k, v⟩ := e
    simp only [jsonObjectLoop] at h
    rcases List.mem_cons.mp h with hr | hr
    · rw [hr]
    · exact ih (i + 1) hr

/-- Counterexample to claim C5: the CSV adapter passes an explicit provider
cell through verbatim, so the row `MY_KEY,abc,Cohere` yields a record whose
provider `Cohere` lies outside the closed enumeration. -/
theorem C5_counterexample :
    parseCsvFile (fun _ => ("u").toList) (("t").toList)
      (("name,value,provider\nMY_KEY,abc,Cohere").toList) =
      [⟨("u").toList, ("MY_KEY").toList, ("abc").toList, some (("Cohere").toList),
        ("t").toList, []⟩] ∧
    ("Cohere").toList ∉ API_KEY_PROVIDERS := by
  constructor
  · decide
  · decide

/-- Amended claim C5: `detectProvider` always returns a member of the closed
enumeration, with unmatched input resolving to `Other`, so every record of the
line-oriented path carries an enumeration member, and every record of the
JSON object path (whose provider is always freshly classified) does too; the
CSV and JSON array adapters, however, pass explicit provider values through
verbatim — possibly outside the enumeration, and, for CSV rows whose
`name=value` re-extraction yields nothing, even undefined. -/
theorem C5_provider_enumeration :
    (∀ n v : List Char, detectProvider n v ∈ API_KEY_PROVIDERS) ∧
    (∀ (ids : Nat → List Char) (now content : List Char) (r : ApiKey),
      r ∈ extractAndCategorizeKeys ids now content → r.provider ∈ API_KEY_PROVIDERS) ∧
    (∀ (ids : Nat → List Char) (now : List Char) (entries : List (List Char × Json))
      (i : Nat) (r : ApiKey), r ∈ jsonObjectLoop ids now entries i →
      r.provider ∈ API_KEY_PROVIDERS) := by
  refine ⟨detectProvider_mem_enum, ?_, ?_⟩
  · intro ids now content r h
    rw [(extractLoop_mem ids now (splitLinesJs content) 0 r h).2.2]
    exact detectProvider_mem_enum r.name r.value
  · intro ids now entries i r h
    rw [jsonObjectLoop_provider ids now entries i r h]
    exact detectProvider_mem_enum r.name r.value

/-- Witness for the amended C5 at concrete records of the two classified
paths. -/
theorem C5_witness :
    (⟨("u").toList, ("A").toList, ("b").toList, ("Other").toList, [], ("t").toList,
        none⟩ : ApiKey).provider ∈ API_KEY_PROVIDERS ∧
    (⟨("u").toList, ("FOO_KEY").toList, ("bar").toList, ("Other").toList, [], ("t").toList,
        none⟩ : ApiKey).provider ∈ API_KEY_PROVIDERS :=
  ⟨C5_provider_enumeration.2.1 (fun _ => ("u").toList) (("t").toList) (("A=b").toList)
      ⟨("u").toList, ("A").toList, ("b").toList, ("Other").toList, [], ("t").toList, none⟩
      (by decide),
   C5_provider_enumeration.2.2 (fun _ => ("u").toList) (("t").toList)
      [((("FOO_KEY").toList : List Char), Json.str (("bar").toList))] 0
      ⟨("u").toList, ("FOO_KEY").toList, ("bar").toList, ("Other").toList, [], ("t").toList, none⟩
      (by decide)⟩

/-! ## Claim C10: malformed JSON input -/

/-- Claim C10: for every input string that is not parseable as JSON, the JSON
adapter returns an empty sequence of records and reports a recoverable error
(the logged `catch` branch, modelled by the boolean flag); being a total
function, the embedded adapter can neither raise to the caller nor terminate
the process. -/
theorem C10_malformed_json :
    ∀ (ids : Nat → List Char) (now content : List Char), parseJson content = none →
      extractKeysFromFile ids now content ((".json").toList) = ([], true) := by
  intro ids now content h
  unfold extractKeysFromFile
  rw [if_neg (by decide), if_pos rfl]
  unfold extractKeysFromJson
  rw [h]

/-- Witness for C10 at the concrete unparseable content consisting of a single
opening brace. -/
theorem C10_witness :
    extractKeysFromFile (fun _ => []) [] ['{'] ((".json").toList) = ([], true) :=
  C10_malformed_json (fun _ => []) [] ['{'] (by rfl)

/-! ## Claim C6: export to `.json` and re-import -/

theorem hexDigitChar_isHex (n : Nat) (h : n < 16) : isHexDigit (hexDigitChar n) = true := by
  interval_cases n <;> decide

theorem hexVal_hexDigitChar (n : Nat) (h : n < 16) : hexVal (hexDigitChar n) = n := by
  interval_cases n <;> decide

theorem parseStringBody_escape (s : List Char) :
    ∀ rest : List Char, parseStringBody (escapeStr s ++ '"' :: rest) = some (s, rest) := by
  induction s with
  | nil =>
    intro rest
    show parseStringBody ('"' :: rest) = some ([], rest)
    rw [parseStringBody.eq_def]
    simp
  | cons c s' ih =>
    intro rest
    show parseStringBody ((escapeChar c ++ escapeStr s') ++ '"' :: rest) = some (c :: s', rest)
    rw [List.append_assoc]
    by_cases h1 : c = '"'
    · rw [show escapeChar c = ['\\', '"'] by simp [escapeChar, h1]]
      rw [List.cons_append, List.cons_append, parseStringBody.eq_def]
      simp [ih, h1]
    · by_cases h2 : c = '\\'
      · rw [show escapeChar c = ['\\', '\\'] by simp [escapeChar, h1, h2]]
        rw [List.cons_append, List.cons_append, parseStringBody.eq_def]
        simp [ih, h2]
      · by_cases h3 : c = '\n'
        · rw [show escapeChar c = ['\\', 'n'] by simp [escapeChar, h1, h2, h3]]
          rw [List.cons_append, List.cons_append, parseStringBody.eq_def]
          simp [ih, h3]
        · by_cases h4 : c = '\r'
          · rw [show escapeChar c = ['\\', 'r'] by simp [escapeChar, h1, h2, h3, h4]]
            rw [List.cons_append, List.cons_append, parseStringBody.eq_def]
            simp [ih, h4]
          · by_cases h5 : c = '\t'
            · rw [show escapeChar c = ['\\', 't'] by simp [escapeChar, h1, h2, h3, h4, h5]]
              rw [List.cons_append, List.cons_append, parseStringBody.eq_def]
              simp [ih, h5]
            · by_cases h6 : c.toNat = 8
              · have hc : c = Char.ofNat 8 := by rw [← h6, Char.ofNat_toNat]
                rw [show escapeChar c = ['\\', 'b'] by simp [escapeChar, h1, h2, h3, h4, h5, h6]]
                rw [List.cons_append, List.cons_append, parseStringBody.eq_def]
                simp [ih, hc]
              · by_cases h7 : c.toNat = 12
                · have hc : c = Char.ofNat 12 := by rw [← h7, Char.ofNat_toNat]
                  rw [show escapeChar c = ['\\', 'f'] by
                    simp [escapeChar, h1, h2, h3, h4, h5, h6, h7]]
                  rw [List.cons_append, List.cons_append, parseStringBody.eq_def]
                  simp [ih, hc]
                · by_cases h8 : c.toNat < 32
                  · have hdiv : c.toNat / 16 < 16 := by omega
                    have hmod : c.toNat % 16 < 16 := by omega
                    rw [show escapeChar c =
                        ['\\', 'u', '0', '0', hexDigitChar (c.toNat / 16),
                         hexDigitChar (c.toNat % 16)] by
                      simp [escapeChar, h1, h2, h3, h4, h5, h6, h7, h8]]
                    rw [List.cons_append, List.cons_append, List.cons_append, List.cons_append,
                      List.cons_append, List.cons_append, parseStringBody.eq_def]
                    have hv0 : hexVal '0' = 0 := by decide
                    have hhx : isHexDigit '0' = true := by decide
                    have harith : c.toNat / 16 * 16 + c.toNat % 16 = c.toNat := by omega
                    simp [ih, hexDigitChar_isHex _ hdiv, hexDigitChar_isHex _ hmod,
                      hexVal_hexDigitChar _ hdiv, hexVal_hexDigitChar _ hmod, hv0, hhx,
                      harith, Char.ofNat_toNat]
                  · rw [show escapeChar c = [c] by simp [escapeChar, h1, h2, h3, h4, h5, h6, h7, h8]]
                    rw [List.cons_append, parseStringBody.eq_def]
                    simp [ih, h1, h2, h8]

theorem skipWs_cons_not (c : Char) (x : List Char) (h : isWsChar c = false) :
    skipWs (c :: x) = c :: x := by
  simp [skipWs, List.dropWhile, h]

theorem skipWs_cons_ws (c : Char) (x : List Char) (h : isWsChar c = true) :
    skipWs (c :: x) = skipWs x := by
  simp [skipWs, List.dropWhile, h]

theorem skipWs_skipWs (x : List Char) : skipWs (skipWs x) = skipWs x :=
  dropWhile_idem isWsChar x

theorem skipWs_pad (n : Nat) (x : List Char) :
    skipWs (List.replicate n ' ' ++ x) = skipWs x := by
  induction n with
  | zero => rfl
  | succ m ih => simpa [List.replicate_succ, skipWs_cons_ws] using ih

theorem parseFields_ws_congr (F : Nat) (X Y : List Char) (h : skipWs X = skipWs Y) :
    parseFields F X = parseFields F Y := by
  cases F with
  | zero => rfl
  | succ f =>
    simp only [parseFields]
    rw [h]

theorem parseElems_ws_congr (F : Nat) (X Y : List Char) (h : skipWs X = skipWs Y) :
    parseElems F X = parseElems F Y := by
  cases F with
  | zero => rfl
  | succ f =>
    simp only [parseElems]
    rw [h]

theorem parseValue_quote (f : Nat) (v rest : List Char) :
    parseValue (f + 1) (quoteStr v ++ rest) = some (Json.str v, rest) := by
  show parseValue (f + 1) (('"' :: (escapeStr v ++ ['"'])) ++ rest) = _
  rw [List.cons_append, List.append_assoc]
  rw [parseValue.eq_def]
  simp [parseStringBody_escape]

theorem stringifyP_str (d : Nat) (v : List Char) : stringifyP d (Json.str v) = quoteStr v := by
  simp [stringifyP]

theorem stringifyFields_single (d : Nat) (k v : List Char) :
    stringifyFields d [(k, Json.str v)] = padN d ++ (quoteStr k ++ ':' :: ' ' :: quoteStr v) := by
  simp [stringifyFields, stringifyP]

theorem stringifyFields_cons2 (d : Nat) (k v : List Char) (p : List Char × Json)
    (fs : List (List Char × Json)) :
    stringifyFields d ((k, Json.str v) :: p :: fs) =
      padN d ++ (quoteStr k ++ ':' :: ' ' ::
        (quoteStr v ++ ',' :: '\n' :: stringifyFields d (p :: fs))) := by
  simp [stringifyFields, stringifyP]

theorem parseValue_quote2 (f : Nat) (v rest : List Char) :
    parseValue (f + 1) ('"' :: (escapeStr v ++ '"' :: rest)) = some (Json.str v, rest) := by
  have := parseValue_quote f v rest
  rw [show quoteStr v ++ rest = '"' :: (escapeStr v ++ '"' :: rest) by
    simp [quoteStr]] at this
  exact this


theorem skipWs_padN (d : Nat) (x : List Char) : skipWs (padN d ++ x) = skipWs x := by
  unfold padN
  exact skipWs_pad (2 * d) x

theorem parseFields_printed (fs : List (List Char × List Char)) :
    ∀ (f : Nat) (rest : List Char), fs ≠ [] →
      parseFields (fs.length + f + 1)
        (stringifyFields 2 (fs.map (fun p => (p.1, Json.str p.2))) ++
          '\n' :: (padN 1 ++ '}' :: rest)) =
        some (fs.map (fun p => (p.1, Json.str p.2)), rest) := by
  induction fs with
  | nil => intro f rest h; exact absurd rfl h
  | cons p fs' ih =>
    obtain ⟨k, v⟩ := p
    intro f rest hne
    rw [show ((k, v) :: fs').length + f + 1 = (fs'.length + f + 1) + 1 by
      simp [List.length_cons]; omega]
    cases fs' with
    | nil =>
      simp only [List.map_cons, List.map_nil]
      rw [stringifyFields_single]
      simp only [parseFields]
      rw [show skipWs ((padN 2 ++ (quoteStr k ++ ':' :: ' ' :: quoteStr v)) ++
            '\n' :: (padN 1 ++ '}' :: rest)) =
          '"' :: (escapeStr k ++ '"' ::
            (':' :: ' ' :: ('"' :: (escapeStr v ++ '"' :: ('\n' :: (padN 1 ++ '}' :: rest)))))) by
        simp only [List.append_assoc, List.cons_append, List.nil_append, quoteStr]
        rw [skipWs_padN, skipWs_cons_not '"' _ (by decide)]]
      dsimp only
      rw [parseStringBody_escape]
      dsimp only
      rw [skipWs_cons_not ':' _ (by decide)]
      dsimp only
      rw [skipWs_cons_ws ' ' _ (by decide), skipWs_cons_not '"' _ (by decide)]
      rw [parseValue_quote2]
      dsimp only
      rw [skipWs_cons_ws '\n' _ (by decide), skipWs_padN, skipWs_cons_not '}' _ (by decide)]
      simp
    | cons p2 fs'' =>
      obtain ⟨F, hF⟩ : ∃ F, (p2 :: fs'').length + f + 1 = F := ⟨_, rfl⟩
      rw [hF]
      simp only [List.map_cons]
      rw [stringifyFields_cons2]
      set tailText :=
        stringifyFields 2 ((p2.1, Json.str p2.2) :: List.map (fun p => (p.1, Json.str p.2)) fs'')
        with htail
      simp only [parseFields]
      rw [show skipWs ((padN 2 ++ (quoteStr k ++ ':' :: ' ' ::
            (quoteStr v ++ ',' :: '\n' :: tailText))) ++
            '\n' :: (padN 1 ++ '}' :: rest)) =
          '"' :: (escapeStr k ++ '"' ::
            (':' :: ' ' :: ('"' :: (escapeStr v ++ '"' ::
              (',' :: '\n' :: (tailText ++ '\n' :: (padN 1 ++ '}' :: rest))))))) by
        simp only [List.append_assoc, List.cons_append, List.nil_append, quoteStr]
        rw [skipWs_padN, skipWs_cons_not '"' _ (by decide)]]
      dsimp only
      rw [parseStringBody_escape]
      dsimp only
      rw [skipWs_cons_not ':' _ (by decide)]
      dsimp only
      rw [skipWs_cons_ws ' ' _ (by decide), skipWs_cons_not '"' _ (by decide)]
      rw [← hF]
      rw [parseValue_quote2]
      dsimp only
      rw [skipWs_cons_not ',' _ (by decide)]
      dsimp only
      rw [if_pos (rfl : (',' : Char) = ',')]
      rw [parseFields_ws_congr ((p2 :: fs'').length + f + 1) _ _
        (skipWs_cons_ws '\n' _ (by decide))]
      have ih2 := ih f rest (by simp)
      simp only [List.map_cons] at ih2
      rw [← htail] at ih2
      rw [ih2]
      simp

theorem apiKeyToJson_eq (k : ApiKey) :
    apiKeyToJson k = .obj ((strFieldsOf k).map (fun p => (p.1, Json.str p.2))) := by
  cases h : k.lastUsed with
  | none => simp [apiKeyToJson, strFieldsOf, h]
  | some u => simp [apiKeyToJson, strFieldsOf, h]

theorem strFieldsOf_ne_nil (k : ApiKey) : strFieldsOf k ≠ [] := by
  cases h : k.lastUsed <;> simp [strFieldsOf, h]

theorem parseValue_obj (f : Nat) (r : List Char) :
    parseValue (f + 1) ('{' :: r) =
      (match skipWs r with
       | c2 :: r2 =>
         if c2 = '}' then some (.obj [], r2)
         else (parseFields f (c2 :: r2)).map (fun p => (.obj p.1, p.2))
       | [] => none) := by
  simp [parseValue]

theorem skipWs_stringifyFields (d : Nat) (q : List Char × Json)
    (qs : List (List Char × Json)) (T : List Char) :
    ∃ X, skipWs ('\n' :: (stringifyFields d (q :: qs) ++ T)) = '"' :: X := by
  obtain ⟨a, b⟩ := q
  rw [skipWs_cons_ws '\n' _ (by decide)]
  cases qs with
  | nil =>
    refine ⟨escapeStr a ++ '"' :: (':' :: ' ' :: (stringifyP d b ++ T)), ?_⟩
    rw [show stringifyFields d [(a, b)] =
        padN d ++ (quoteStr a ++ ':' :: ' ' :: stringifyP d b) by
      simp [stringifyFields]]
    simp only [quoteStr, List.append_assoc, List.cons_append, List.nil_append]
    rw [skipWs_padN, skipWs_cons_not '"' _ (by decide)]
  | cons p ps =>
    refine ⟨escapeStr a ++ '"' :: (':' :: ' ' ::
      ((stringifyP d b ++ ',' :: '\n' :: stringifyFields d (p :: ps)) ++ T)), ?_⟩
    rw [show stringifyFields d ((a, b) :: p :: ps) =
        padN d ++ (quoteStr a ++ ':' :: ' ' ::
          (stringifyP d b ++ ',' :: '\n' :: stringifyFields d (p :: ps))) by
      simp [stringifyFields]]
    simp only [quoteStr, List.append_assoc, List.cons_append, List.nil_append]
    rw [skipWs_padN, skipWs_cons_not '"' _ (by decide)]

theorem parseValue_record (k : ApiKey) (f : Nat) (rest : List Char) :
    parseValue ((strFieldsOf k).length + f + 2)
      (stringifyP 1 (apiKeyToJson k) ++ rest) = some (apiKeyToJson k, rest) := by
  rw [apiKeyToJson_eq]
  obtain ⟨q, qs, hq⟩ :
      ∃ q qs, (strFieldsOf k).map (fun p => (p.1, Json.str p.2)) = q :: qs := by
    cases h : (strFieldsOf k).map (fun p => (p.1, Json.str p.2)) with
    | nil => exact absurd (List.map_eq_nil_iff.mp h) (strFieldsOf_ne_nil k)
    | cons a l => exact ⟨a, l, rfl⟩
  rw [hq]
  rw [show stringifyP 1 (Json.obj (q :: qs)) =
      '{' :: '\n' :: (stringifyFields 2 (q :: qs) ++ '\n' :: (padN 1 ++ ['}'])) by
    simp [stringifyP]]
  simp only [List.cons_append, List.append_assoc, List.singleton_append,
    List.nil_append]
  rw [show (strFieldsOf k).length + f + 2 =
      ((strFieldsOf k).length + f + 1) + 1 by omega]
  rw [parseValue_obj]
  obtain ⟨X, hX⟩ :=
    skipWs_stringifyFields 2 q qs ('\n' :: (padN 1 ++ '}' :: rest))
  rw [hX]
  dsimp only
  rw [if_neg (by decide : ¬ ('"' : Char) = '}')]
  rw [parseFields_ws_congr ((strFieldsOf k).length + f + 1) ('"' :: X)
    ('\n' :: (stringifyFields 2 (q :: qs) ++ '\n' :: (padN 1 ++ '}' :: rest)))
    (by rw [skipWs_cons_not '"' _ (by decide), hX])]
  rw [parseFields_ws_congr _ _ _ (skipWs_cons_ws '\n' _ (by decide))]
  rw [← hq]
  rw [parseFields_printed (strFieldsOf k) f rest (strFieldsOf_ne_nil k)]
  simp

theorem strFieldsOf_length_le (k : ApiKey) : (strFieldsOf k).length ≤ 7 := by
  cases h : k.lastUsed <;> simp [strFieldsOf, h]

theorem parseElems_succ (f : Nat) (s : List Char) :
    parseElems (f + 1) s =
      (match parseValue f (skipWs s) with
       | none => none
       | some (v, r) =>
         match skipWs r with
         | c :: r2 =>
           if c = ',' then
             match parseElems f r2 with
             | some (vs, r3) => some (v :: vs, r3)
             | none => none
           else if c = ']' then some ([v], r2)
           else none
         | [] => none) := by
  simp only [parseElems]

theorem stringifyP_record_head (k : ApiKey) :
    ∃ Y, stringifyP 1 (apiKeyToJson k) = '{' :: Y := by
  rw [apiKeyToJson_eq]
  obtain ⟨q, qs, hq⟩ :
      ∃ q qs, (strFieldsOf k).map (fun p => (p.1, Json.str p.2)) = q :: qs := by
    cases h : (strFieldsOf k).map (fun p => (p.1, Json.str p.2)) with
    | nil => exact absurd (List.map_eq_nil_iff.mp h) (strFieldsOf_ne_nil k)
    | cons a l => exact ⟨a, l, rfl⟩
  rw [hq]
  exact ⟨'\n' :: (stringifyFields 2 (q :: qs) ++ '\n' :: (padN 1 ++ ['\x7d'])),
    by simp [stringifyP]⟩

theorem parseElems_printed (ks : List ApiKey) :
    ∀ (f : Nat) (rest : List Char), ks ≠ [] →
      parseElems (10 * ks.length + f + 1)
        (stringifyItems 1 (ks.map apiKeyToJson) ++
          '\n' :: (padN 0 ++ ']' :: rest)) =
      some (ks.map apiKeyToJson, rest) := by
  induction ks with
  | nil => intro f rest h; exact absurd rfl h
  | cons k ktail ih =>
    intro f rest hne
    cases ktail with
    | nil =>
      simp only [List.map_cons, List.map_nil]
      rw [show stringifyItems 1 [apiKeyToJson k] =
          padN 1 ++ stringifyP 1 (apiKeyToJson k) by simp [stringifyItems]]
      rw [show 10 * ([k] : List ApiKey).length + f + 1 = (f + 10) + 1 by
        have h : ([k] : List ApiKey).length = 1 := rfl
        rw [h]; omega]
      rw [parseElems_succ]
      simp only [List.append_assoc]
      rw [skipWs_padN]
      obtain ⟨Y, hY⟩ := stringifyP_record_head k
      rw [hY]
      simp only [List.cons_append]
      rw [skipWs_cons_not '{' _ (by decide)]
      rw [← List.cons_append, ← hY]
      rw [show f + 10 = (strFieldsOf k).length +
          (f + 8 - (strFieldsOf k).length) + 2 by
        have := strFieldsOf_length_le k; omega]
      rw [parseValue_record]
      dsimp only
      rw [skipWs_cons_ws '\n' _ (by decide), skipWs_padN,
        skipWs_cons_not ']' _ (by decide)]
      simp
    | cons k2 kt =>
      simp only [List.map_cons]
      rw [show stringifyItems 1
            (apiKeyToJson k :: apiKeyToJson k2 :: kt.map apiKeyToJson) =
          padN 1 ++ (stringifyP 1 (apiKeyToJson k) ++ ',' :: '\n' ::
            stringifyItems 1 (apiKeyToJson k2 :: kt.map apiKeyToJson)) by
        simp [stringifyItems]]
      rw [show 10 * ((k :: k2 :: kt) : List ApiKey).length + f + 1 =
          (10 * ((k2 :: kt) : List ApiKey).length + f + 10) + 1 by
        have h : ((k :: k2 :: kt) : List ApiKey).length =
            ((k2 :: kt) : List ApiKey).length + 1 := rfl
        rw [h]; omega]
      rw [parseElems_succ]
      simp only [List.append_assoc, List.cons_append]
      rw [skipWs_padN]
      obtain ⟨Y, hY⟩ := stringifyP_record_head k
      rw [hY]
      simp only [List.cons_append]
      rw [skipWs_cons_not '{' _ (by decide)]
      rw [← List.cons_append, ← hY]
      rw [show 10 * ((k2 :: kt) : List ApiKey).length + f + 10 =
          (strFieldsOf k).length +
            (10 * ((k2 :: kt) : List ApiKey).length + f + 8 -
              (strFieldsOf k).length) + 2 by
        have := strFieldsOf_length_le k; omega]
      rw [parseValue_record]
      dsimp only
      rw [skipWs_cons_not ',' _ (by decide)]
      dsimp only
      rw [if_pos (rfl : (',' : Char) = ',')]
      rw [show (strFieldsOf k).length +
            (10 * ((k2 :: kt) : List ApiKey).length + f + 8 -
              (strFieldsOf k).length) + 2 =
          10 * ((k2 :: kt) : List ApiKey).length + (f + 9) + 1 by
        have := strFieldsOf_length_le k; omega]
      rw [parseElems_ws_congr (10 * ((k2 :: kt) : List ApiKey).length + (f + 9) + 1)
        _ _ (skipWs_cons_ws '\n' _ (by decide))]
      have ih2 := ih (f + 9) rest (by simp)
      simp only [List.map_cons] at ih2
      rw [ih2]

theorem stringifyP_record_eq (k : ApiKey) :
    ∃ q qs, stringifyP 1 (apiKeyToJson k) =
      '{' :: '\n' :: (stringifyFields 2 (q :: qs) ++ '\n' :: (padN 1 ++ ['}'])) := by
  rw [apiKeyToJson_eq]
  obtain ⟨q, qs, hq⟩ :
      ∃ q qs, (strFieldsOf k).map (fun p => (p.1, Json.str p.2)) = q :: qs := by
    cases h : (strFieldsOf k).map (fun p => (p.1, Json.str p.2)) with
    | nil => exact absurd (List.map_eq_nil_iff.mp h) (strFieldsOf_ne_nil k)
    | cons a l => exact ⟨a, l, rfl⟩
  rw [hq]
  exact ⟨q, qs, by simp [stringifyP]⟩

theorem stringifyP_record_len (k : ApiKey) :
    3 ≤ (stringifyP 1 (apiKeyToJson k)).length := by
  obtain ⟨q, qs, h⟩ := stringifyP_record_eq k
  rw [h]
  simp
  omega

theorem stringifyItems_len (ks : List ApiKey) :
    ks ≠ [] → 5 * ks.length ≤ (stringifyItems 1 (ks.map apiKeyToJson)).length := by
  induction ks with
  | nil => intro h; exact absurd rfl h
  | cons k kt ih =>
    intro _
    cases kt with
    | nil =>
      rw [show stringifyItems 1 (([k] : List ApiKey).map apiKeyToJson) =
          padN 1 ++ stringifyP 1 (apiKeyToJson k) by simp [stringifyItems]]
      have h1 := stringifyP_record_len k
      simp [padN]
      omega
    | cons k2 kt2 =>
      simp only [List.map_cons]
      rw [show stringifyItems 1
            (apiKeyToJson k :: apiKeyToJson k2 :: kt2.map apiKeyToJson) =
          padN 1 ++ (stringifyP 1 (apiKeyToJson k) ++ ',' :: '\n' ::
            stringifyItems 1 (apiKeyToJson k2 :: kt2.map apiKeyToJson)) by
        simp [stringifyItems]]
      have h1 := stringifyP_record_len k
      have h2 := ih (by simp)
      simp only [List.map_cons] at h2
      simp only [List.length_append, List.length_cons, List.length_replicate,
        padN, List.length_cons]
      simp only [List.length_cons] at h2 ⊢
      omega

theorem parseValue_arr (f : Nat) (r : List Char) :
    parseValue (f + 1) ('[' :: r) =
      (match skipWs r with
       | c2 :: r2 =>
         if c2 = ']' then some (.arr [], r2)
         else (parseElems f (c2 :: r2)).map (fun p => (.arr p.1, p.2))
       | [] => none) := by
  simp [parseValue]

theorem skipWs_stringifyItems (q : Json) (Y : List Char)
    (hq : stringifyP 1 q = '{' :: Y) (qs : List Json) (T : List Char) :
    ∃ X, skipWs ('\n' :: (stringifyItems 1 (q :: qs) ++ T)) = '{' :: X := by
  rw [skipWs_cons_ws '\n' _ (by decide)]
  cases qs with
  | nil =>
    rw [show stringifyItems 1 [q] = padN 1 ++ stringifyP 1 q by
      simp [stringifyItems]]
    rw [hq]
    simp only [List.append_assoc, List.cons_append]
    rw [skipWs_padN, skipWs_cons_not '{' _ (by decide)]
    exact ⟨_, rfl⟩
  | cons p ps =>
    rw [show stringifyItems 1 (q :: p :: ps) =
        padN 1 ++ (stringifyP 1 q ++ ',' :: '\n' :: stringifyItems 1 (p :: ps)) by
      simp [stringifyItems]]
    rw [hq]
    simp only [List.append_assoc, List.cons_append]
    rw [skipWs_padN, skipWs_cons_not '{' _ (by decide)]
    exact ⟨_, rfl⟩

theorem parseJson_export (ks : List ApiKey) :
    parseJson (formatApiKeysForExport ks ((".json").toList)) =
      some (.arr (ks.map apiKeyToJson)) := by
  rw [show formatApiKeysForExport ks ((".json").toList) =
      stringifyP 0 (.arr (ks.map apiKeyToJson)) by
    simp [formatApiKeysForExport]]
  cases ks with
  | nil =>
    rw [show stringifyP 0 (Json.arr (([] : List ApiKey).map apiKeyToJson)) =
        ['[', ']'] by simp [stringifyP]]
    rfl
  | cons k kt =>
    simp only [List.map_cons]
    rw [show stringifyP 0 (Json.arr (apiKeyToJson k :: kt.map apiKeyToJson)) =
        '[' :: '\n' :: (stringifyItems 1 (apiKeyToJson k :: kt.map apiKeyToJson) ++
          '\n' :: (padN 0 ++ [']'])) by simp [stringifyP]]
    simp only [parseJson]
    rw [show ('[' :: '\n' ::
          (stringifyItems 1 (apiKeyToJson k :: kt.map apiKeyToJson) ++
            '\n' :: (padN 0 ++ [']']))).length =
        (stringifyItems 1 (apiKeyToJson k :: kt.map apiKeyToJson)).length + 4 by
      simp [padN]]
    have hL := stringifyItems_len (k :: kt) (by simp)
    simp only [List.map_cons, List.length_cons] at hL
    rw [show 2 * ((stringifyItems 1
            (apiKeyToJson k :: kt.map apiKeyToJson)).length + 4) + 2 =
        (10 * ((k :: kt) : List ApiKey).length +
          (2 * (stringifyItems 1
            (apiKeyToJson k :: kt.map apiKeyToJson)).length + 8 -
            10 * ((k :: kt) : List ApiKey).length) + 1) + 1 by
      simp only [List.length_cons]
      omega]
    rw [skipWs_cons_not '[' _ (by decide)]
    rw [parseValue_arr]
    obtain ⟨q, qs, hq⟩ := stringifyP_record_eq k
    obtain ⟨X, hX⟩ := skipWs_stringifyItems (apiKeyToJson k) _ hq
      (kt.map apiKeyToJson) ('\n' :: (padN 0 ++ [']']))
    rw [hX]
    dsimp only
    rw [if_neg (by decide : ¬ ('{' : Char) = ']')]
    rw [parseElems_ws_congr _ ('{' :: X)
      ('\n' :: (stringifyItems 1 (apiKeyToJson k :: kt.map apiKeyToJson) ++
        '\n' :: (padN 0 ++ [']'])))
      (by rw [skipWs_cons_not '{' _ (by decide), hX])]
    rw [parseElems_ws_congr _ _ _ (skipWs_cons_ws '\n' _ (by decide))]
    have hmain := parseElems_printed (k :: kt)
      (2 * (stringifyItems 1
        (apiKeyToJson k :: kt.map apiKeyToJson)).length + 8 -
        10 * ((k :: kt) : List ApiKey).length) [] (by simp)
    simp only [List.map_cons] at hmain
    rw [hmain]
    rfl

theorem lookupField_id (k : ApiKey) :
    lookupField ((strFieldsOf k).map (fun p => (p.1, Json.str p.2)))
      (("id").toList) = some (.str k.id) := by
  obtain ⟨i, n, v, p, d, da, lu⟩ := k
  cases lu <;> rfl

theorem lookupField_name (k : ApiKey) :
    lookupField ((strFieldsOf k).map (fun p => (p.1, Json.str p.2)))
      (("name").toList) = some (.str k.name) := by
  obtain ⟨i, n, v, p, d, da, lu⟩ := k
  cases lu <;> rfl

theorem lookupField_value (k : ApiKey) :
    lookupField ((strFieldsOf k).map (fun p => (p.1, Json.str p.2)))
      (("value").toList) = some (.str k.value) := by
  obtain ⟨i, n, v, p, d, da, lu⟩ := k
  cases lu <;> rfl

theorem lookupField_provider (k : ApiKey) :
    lookupField ((strFieldsOf k).map (fun p => (p.1, Json.str p.2)))
      (("provider").toList) = some (.str k.provider) := by
  obtain ⟨i, n, v, p, d, da, lu⟩ := k
  cases lu <;> rfl

theorem lookupField_description (k : ApiKey) :
    lookupField ((strFieldsOf k).map (fun p => (p.1, Json.str p.2)))
      (("description").toList) = some (.str k.description) := by
  obtain ⟨i, n, v, p, d, da, lu⟩ := k
  cases lu <;> rfl

theorem lookupField_dateAdded (k : ApiKey) :
    lookupField ((strFieldsOf k).map (fun p => (p.1, Json.str p.2)))
      (("dateAdded").toList) = some (.str k.dateAdded) := by
  obtain ⟨i, n, v, p, d, da, lu⟩ := k
  cases lu <;> rfl

theorem lookupField_lastUsed (k : ApiKey) :
    lookupField ((strFieldsOf k).map (fun p => (p.1, Json.str p.2)))
      (("lastUsed").toList) = k.lastUsed.map Json.str := by
  obtain ⟨i, n, v, p, d, da, lu⟩ := k
  cases lu <;> rfl

theorem jsOr_str (s : List Char) (hs : s ≠ []) (d : Json) :
    jsOr (some (.str s)) d = .str s := by
  simp [jsOr, jsTruthy, hs]

theorem jsOr_str_desc (s : List Char) :
    jsOr (some (.str s)) (.str []) = .str s := by
  by_cases h : s = [] <;> simp [jsOr, jsTruthy, h]

theorem mapItems_cons_record (ids : Nat → List Char) (now : List Char)
    (k : ApiKey) (items : List Json) (i : Nat)
    (hid : k.id ≠ []) (hname : k.name ≠ []) (hvalue : k.value ≠ [])
    (hprov : k.provider ≠ []) (hdate : k.dateAdded ≠ []) :
    mapItems ids now (apiKeyToJson k :: items) i =
      (mapItems ids now items (i + 1)).map (fun rs => jsOfApiKey k :: rs) := by
  rw [apiKeyToJson_eq]
  simp only [mapItems]
  rw [lookupField_name, lookupField_value, lookupField_id, lookupField_provider,
    lookupField_description, lookupField_dateAdded, lookupField_lastUsed]
  rw [if_pos (And.intro (by simp [jsTruthyOpt, jsTruthy, hname])
    (by simp [jsTruthyOpt, jsTruthy, hvalue]))]
  rw [jsOr_str k.id hid, jsOr_str k.provider hprov, jsOr_str_desc,
    jsOr_str k.dateAdded hdate]
  cases hmi : mapItems ids now items (i + 1) <;> simp [jsOfApiKey]

theorem mapItems_export (ids : Nat → List Char) (now : List Char)
    (ks : List ApiKey)
    (h : ∀ k ∈ ks, k.id ≠ [] ∧ k.name ≠ [] ∧ k.value ≠ [] ∧
      k.provider ≠ [] ∧ k.dateAdded ≠ []) :
    ∀ i, mapItems ids now (ks.map apiKeyToJson) i = some (ks.map jsOfApiKey) := by
  induction ks with
  | nil => intro i; rfl
  | cons k kt ih =>
    intro i
    have hk := h k (by simp)
    simp only [List.map_cons]
    rw [mapItems_cons_record ids now k _ i hk.1 hk.2.1 hk.2.2.1 hk.2.2.2.1
      hk.2.2.2.2]
    rw [ih (fun k' hk' => h k' (by simp [hk'])) (i + 1)]
    rfl

/-- C6: exporting a record set with the .json formatter (a pretty-printed JSON
array) and re-importing the text through the JSON adapter yields an equal
record set, each record's id preserved, provided every record's id, name,
value, provider and dateAdded are non-empty (truthy) strings. -/
theorem C6_json_roundtrip (ids : Nat → List Char) (now : List Char)
    (keys : List ApiKey)
    (h : ∀ k ∈ keys, k.id ≠ [] ∧ k.name ≠ [] ∧ k.value ≠ [] ∧
      k.provider ≠ [] ∧ k.dateAdded ≠ []) :
    extractKeysFromFile ids now
      (formatApiKeysForExport keys ((".json").toList)) ((".json").toList) =
      (keys.map jsOfApiKey, false) := by
  rw [show extractKeysFromFile ids now
        (formatApiKeysForExport keys ((".json").toList)) ((".json").toList) =
      extractKeysFromJson ids now
        (formatApiKeysForExport keys ((".json").toList)) from rfl]
  simp only [extractKeysFromJson]
  rw [parseJson_export]
  dsimp only
  rw [mapItems_export ids now keys h 0]

theorem C6_witness :
    extractKeysFromFile (fun _ => ("u1").toList) (("2024").toList)
      (formatApiKeysForExport
        [⟨("a").toList, ("N").toList, ("V").toList, ("Other").toList, [],
          ("2024").toList, none⟩] ((".json").toList)) ((".json").toList) =
      (([⟨("a").toList, ("N").toList, ("V").toList, ("Other").toList, [],
          ("2024").toList, none⟩] : List ApiKey).map jsOfApiKey, false) :=
  C6_json_roundtrip (fun _ => ("u1").toList) (("2024").toList)
    [⟨("a").toList, ("N").toList, ("V").toList, ("Other").toList, [],
      ("2024").toList, none⟩] (by decide)
